import Mathlib

set_option maxRecDepth 10000

/-!
Verification development for the velora-prop-validator distribution
verification engine.

The definitions below are a shallow embedding of the TypeScript sources:
  * `src/velora-verifier/lib/merkle/generator.ts` — merkle engine
    (`generateMerkleTree`, `generateLeaf`, `verifyProof`, `detectMerkleFormat`),
    together with the `merkletreejs` tree construction it delegates to
    (`sortPairs: true`, `hashLeaves: false`, `duplicateOdd: false`);
  * `src/lib/merkle/verifier.ts` — verification orchestrator
    (`verifyMerkleRoot`, `validateDistribution`, `createVerificationResult`);
  * `src/app/api/verify/route.ts` — `parseDistributionData`, array branch;
  * `lib/validators/amounts.ts` — `validateAmount`;
  * `lib/validators/distribution.ts` — `calculateConcentrationRisk` and the
    concentration-risk validation check.

Conventions of the embedding:
  * JavaScript `BigInt` values are `Int`; byte strings are `List Nat` with
    every element `< 256`; 32-byte hashes are their big-endian `Nat` value
    (`< 2^256`).  ethers and merkletreejs render hashes as lowercase
    `0x`-prefixed 64-hex-digit strings; comparing two such strings with
    JavaScript `<` (as `verifyProof` does) or with `Buffer.compare` (as
    merkletreejs `sortPairs` does) orders them exactly like the underlying
    `Nat` values, so sibling ordering is modelled on `Nat`.  Roots returned
    to callers are modelled as the hex strings themselves, since they are
    compared case-insensitively against caller-supplied strings.
  * `keccak256` is implemented concretely (Keccak-f[1600], rate 1088 bits,
    original 0x01 multi-rate padding, as used by Ethereum), on a state
    packed into a single `Nat`.
  * Fallible TypeScript code (`throw`) is modelled with `Except String`.
  * Wall-clock metadata (`verifiedAt`, `duration`) is outside the model.
-/

/-! ## Keccak-256 -/

/-- 2^64 - 1, the mask for 64-bit lanes. -/
def u64mask : Nat := 18446744073709551615

/-- Left-rotation of a 64-bit lane. -/
def rotl64 (a n : Nat) : Nat :=
  ((a <<< n) ||| (a >>> (64 - n))) &&& u64mask

/-- Keccak round constants (ι step, rounds 0-23 of Keccak-f[1600]). -/
def keccakRC : List Nat :=
  [0x1, 0x8082, 0x800000000000808a, 0x8000000080008000, 0x808b, 0x80000001,
   0x8000000080008081, 0x8000000000008009, 0x8a, 0x88, 0x80008009, 0x8000000a,
   0x8000808b, 0x800000000000008b, 0x8000000000008089, 0x8000000000008003,
   0x8000000000008002, 0x8000000000000080, 0x800a, 0x800000008000000a,
   0x8000000080008081, 0x8000000000008080, 0x80000001, 0x8000000080008008]

/-- One Keccak-f[1600] round on a packed 1600-bit state (lane `x + 5*y` at
bit `64 * (x + 5*y)`), written as an explicit chain of 64-bit `Nat`
operations so that kernel reduction shares every intermediate value. -/
def keccakRound (s rc : Nat) : Nat :=
  let a0 := (s >>> 0) &&& u64mask
  let a1 := (s >>> 64) &&& u64mask
  let a2 := (s >>> 128) &&& u64mask
  let a3 := (s >>> 192) &&& u64mask
  let a4 := (s >>> 256) &&& u64mask
  let a5 := (s >>> 320) &&& u64mask
  let a6 := (s >>> 384) &&& u64mask
  let a7 := (s >>> 448) &&& u64mask
  let a8 := (s >>> 512) &&& u64mask
  let a9 := (s >>> 576) &&& u64mask
  let a10 := (s >>> 640) &&& u64mask
  let a11 := (s >>> 704) &&& u64mask
  let a12 := (s >>> 768) &&& u64mask
  let a13 := (s >>> 832) &&& u64mask
  let a14 := (s >>> 896) &&& u64mask
  let a15 := (s >>> 960) &&& u64mask
  let a16 := (s >>> 1024) &&& u64mask
  let a17 := (s >>> 1088) &&& u64mask
  let a18 := (s >>> 1152) &&& u64mask
  let a19 := (s >>> 1216) &&& u64mask
  let a20 := (s >>> 1280) &&& u64mask
  let a21 := (s >>> 1344) &&& u64mask
  let a22 := (s >>> 1408) &&& u64mask
  let a23 := (s >>> 1472) &&& u64mask
  let a24 := (s >>> 1536) &&& u64mask
  let c0 := a0 ^^^ a5 ^^^ a10 ^^^ a15 ^^^ a20
  let c1 := a1 ^^^ a6 ^^^ a11 ^^^ a16 ^^^ a21
  let c2 := a2 ^^^ a7 ^^^ a12 ^^^ a17 ^^^ a22
  let c3 := a3 ^^^ a8 ^^^ a13 ^^^ a18 ^^^ a23
  let c4 := a4 ^^^ a9 ^^^ a14 ^^^ a19 ^^^ a24
  let d0 := c4 ^^^ rotl64 c1 1
  let d1 := c0 ^^^ rotl64 c2 1
  let d2 := c1 ^^^ rotl64 c3 1
  let d3 := c2 ^^^ rotl64 c4 1
  let d4 := c3 ^^^ rotl64 c0 1
  let b0 := a0 ^^^ d0
  let b1 := a1 ^^^ d1
  let b2 := a2 ^^^ d2
  let b3 := a3 ^^^ d3
  let b4 := a4 ^^^ d4
  let b5 := a5 ^^^ d0
  let b6 := a6 ^^^ d1
  let b7 := a7 ^^^ d2
  let b8 := a8 ^^^ d3
  let b9 := a9 ^^^ d4
  let b10 := a10 ^^^ d0
  let b11 := a11 ^^^ d1
  let b12 := a12 ^^^ d2
  let b13 := a13 ^^^ d3
  let b14 := a14 ^^^ d4
  let b15 := a15 ^^^ d0
  let b16 := a16 ^^^ d1
  let b17 := a17 ^^^ d2
  let b18 := a18 ^^^ d3
  let b19 := a19 ^^^ d4
  let b20 := a20 ^^^ d0
  let b21 := a21 ^^^ d1
  let b22 := a22 ^^^ d2
  let b23 := a23 ^^^ d3
  let b24 := a24 ^^^ d4
  let e0 := b0
  let e1 := rotl64 b6 44
  let e2 := rotl64 b12 43
  let e3 := rotl64 b18 21
  let e4 := rotl64 b24 14
  let e5 := rotl64 b3 28
  let e6 := rotl64 b9 20
  let e7 := rotl64 b10 3
  let e8 := rotl64 b16 45
  let e9 := rotl64 b22 61
  let e10 := rotl64 b1 1
  let e11 := rotl64 b7 6
  let e12 := rotl64 b13 25
  let e13 := rotl64 b19 8
  let e14 := rotl64 b20 18
  let e15 := rotl64 b4 27
  let e16 := rotl64 b5 36
  let e17 := rotl64 b11 10
  let e18 := rotl64 b17 15
  let e19 := rotl64 b23 56
  let e20 := rotl64 b2 62
  let e21 := rotl64 b8 55
  let e22 := rotl64 b14 39
  let e23 := rotl64 b15 41
  let e24 := rotl64 b21 2
  let f0 := e0 ^^^ ((e1 ^^^ u64mask) &&& e2)
  let f1 := e1 ^^^ ((e2 ^^^ u64mask) &&& e3)
  let f2 := e2 ^^^ ((e3 ^^^ u64mask) &&& e4)
  let f3 := e3 ^^^ ((e4 ^^^ u64mask) &&& e0)
  let f4 := e4 ^^^ ((e0 ^^^ u64mask) &&& e1)
  let f5 := e5 ^^^ ((e6 ^^^ u64mask) &&& e7)
  let f6 := e6 ^^^ ((e7 ^^^ u64mask) &&& e8)
  let f7 := e7 ^^^ ((e8 ^^^ u64mask) &&& e9)
  let f8 := e8 ^^^ ((e9 ^^^ u64mask) &&& e5)
  let f9 := e9 ^^^ ((e5 ^^^ u64mask) &&& e6)
  let f10 := e10 ^^^ ((e11 ^^^ u64mask) &&& e12)
  let f11 := e11 ^^^ ((e12 ^^^ u64mask) &&& e13)
  let f12 := e12 ^^^ ((e13 ^^^ u64mask) &&& e14)
  let f13 := e13 ^^^ ((e14 ^^^ u64mask) &&& e10)
  let f14 := e14 ^^^ ((e10 ^^^ u64mask) &&& e11)
  let f15 := e15 ^^^ ((e16 ^^^ u64mask) &&& e17)
  let f16 := e16 ^^^ ((e17 ^^^ u64mask) &&& e18)
  let f17 := e17 ^^^ ((e18 ^^^ u64mask) &&& e19)
  let f18 := e18 ^^^ ((e19 ^^^ u64mask) &&& e15)
  let f19 := e19 ^^^ ((e15 ^^^ u64mask) &&& e16)
  let f20 := e20 ^^^ ((e21 ^^^ u64mask) &&& e22)
  let f21 := e21 ^^^ ((e22 ^^^ u64mask) &&& e23)
  let f22 := e22 ^^^ ((e23 ^^^ u64mask) &&& e24)
  let f23 := e23 ^^^ ((e24 ^^^ u64mask) &&& e20)
  let f24 := e24 ^^^ ((e20 ^^^ u64mask) &&& e21)
  let g0 := f0 ^^^ rc
  g0 ||| (f1 <<< 64) ||| (f2 <<< 128) ||| (f3 <<< 192) ||| (f4 <<< 256) |||
    (f5 <<< 320) ||| (f6 <<< 384) ||| (f7 <<< 448) ||| (f8 <<< 512) ||| (f9 <<< 576) |||
    (f10 <<< 640) ||| (f11 <<< 704) ||| (f12 <<< 768) ||| (f13 <<< 832) ||| (f14 <<< 896) |||
    (f15 <<< 960) ||| (f16 <<< 1024) ||| (f17 <<< 1088) ||| (f18 <<< 1152) ||| (f19 <<< 1216) |||
    (f20 <<< 1280) ||| (f21 <<< 1344) ||| (f22 <<< 1408) ||| (f23 <<< 1472) ||| (f24 <<< 1536)

/-- The full Keccak-f[1600] permutation (24 rounds). -/
def keccakF (s : Nat) : Nat := keccakRC.foldl keccakRound s

/-- Little-endian byte list to `Nat` (byte k at bits 8k; this is also the
packed-state layout, so a 136-byte block XORs directly onto the state). -/
def bytesLEToNat (bs : List Nat) : Nat := bs.foldr (fun b acc => acc * 256 + b) 0

/-- Multi-rate padding with suffix 0x01 (original Keccak, as used by
Ethereum's keccak256), rate 136 bytes. -/
def keccakPad (msg : List Nat) : List Nat :=
  let p := 136 - msg.length % 136
  if p == 1 then msg ++ [129] else msg ++ [1] ++ List.replicate (p - 2) 0 ++ [128]

/-- Split a byte list into 136-byte blocks (fuel-based structural recursion
so that the kernel can reduce it; the fuel `l.length` always suffices). -/
def chunksAux : Nat → List Nat → List (List Nat)
  | 0, _ => []
  | _ + 1, [] => []
  | fuel + 1, h :: t => ((h :: t).take 136) :: chunksAux fuel ((h :: t).drop 136)

def chunks136 (l : List Nat) : List (List Nat) := chunksAux l.length l

/-- Absorb one 136-byte block and permute. -/
def absorbBlock (s : Nat) (block : List Nat) : Nat := keccakF (s ^^^ bytesLEToNat block)

/-- Big-endian value of the lowest 32 bytes of the state: the digest bytes
are the first 32 state bytes (little-endian lane order), and the digest's
`Nat` value reads them in print order (big-endian). -/
def beBytes32 (s : Nat) : Nat :=
  (List.range 32).foldl (fun acc k => acc * 256 + ((s >>> (8 * k)) &&& 255)) 0

/-- Keccak-256 of a byte string, as the big-endian value of the 32-byte
digest (the value denoted by the lowercase `0x`-hex string ethers returns). -/
def keccak256N (msg : List Nat) : Nat :=
  beBytes32 ((chunks136 (keccakPad msg)).foldl absorbBlock 0)

/-- Sanity: the Keccak-256 test vector for the empty input. -/
theorem keccak256N_nil :
    keccak256N [] =
      0xc5d2460186f7233c927e7db2dcc703c0e500b653ca82273b7bfad8045d85a470 := by
  rfl

/-- Sanity: the Keccak-256 test vector for "abc". -/
theorem keccak256N_abc :
    keccak256N [97, 98, 99] =
      0x4e03657aea45a94fc7d47ba826c8d667c0d1e6e33a64a036ec44f58fa12d6c45 := by
  rfl

/-! ## JavaScript string and number primitives -/

/-- JavaScript `String.prototype.toLowerCase` on one character (ASCII; the
strings handled by the verifier are ASCII hex/identifier strings). -/
def jsCharLower (c : Char) : Char :=
  if 65 ≤ c.toNat ∧ c.toNat ≤ 90 then Char.ofNat (c.toNat + 32) else c

/-- JavaScript `String.prototype.toUpperCase` on one character (ASCII). -/
def jsCharUpper (c : Char) : Char :=
  if 97 ≤ c.toNat ∧ c.toNat ≤ 122 then Char.ofNat (c.toNat - 32) else c

/-- JavaScript `s.toLowerCase()`. -/
def jsToLower (s : String) : String := String.mk (s.data.map jsCharLower)

/-- JavaScript `s.toUpperCase()`. -/
def jsToUpper (s : String) : String := String.mk (s.data.map jsCharUpper)

def isDigitChar (c : Char) : Bool := 48 ≤ c.toNat ∧ c.toNat ≤ 57

/-- Value of a hex digit (both cases), `none` for non-hex characters. -/
def hexVal? (c : Char) : Option Nat :=
  if 48 ≤ c.toNat ∧ c.toNat ≤ 57 then some (c.toNat - 48)
  else if 97 ≤ c.toNat ∧ c.toNat ≤ 102 then some (c.toNat - 87)
  else if 65 ≤ c.toNat ∧ c.toNat ≤ 70 then some (c.toNat - 55)
  else none

/-- Digits-to-value in a given base; `none` on an empty list or a character
outside the base's digit set. -/
def baseVal? (base : Nat) (digOf : Char → Option Nat) (cs : List Char) : Option Nat :=
  if cs.isEmpty then none
  else cs.foldl
    (fun acc c =>
      match acc, digOf c with
      | some a, some d => if d < base then some (base * a + d) else none
      | _, _ => none)
    (some 0)

def decVal? (cs : List Char) : Option Nat :=
  baseVal? 10 (fun c => if isDigitChar c then some (c.toNat - 48) else none) cs

/-- ASCII whitespace trim (JavaScript trims surrounding whitespace in
`BigInt(string)` and `Number(string)`). -/
def jsTrim (cs : List Char) : List Char :=
  ((cs.dropWhile (fun c => c = ' ' ∨ c = '\t' ∨ c = '\n' ∨ c = '\r')).reverse.dropWhile
      (fun c => c = ' ' ∨ c = '\t' ∨ c = '\n' ∨ c = '\r')).reverse

/-- JavaScript `BigInt(string)`: optional sign with decimal digits, or an
unsigned `0x`/`0o`/`0b` literal; the empty (or all-whitespace) string is `0`;
anything else throws (`none`). -/
def jsBigInt? (s : String) : Option Int :=
  match jsTrim s.data with
  | [] => some 0
  | '-' :: rest => (decVal? rest).map (fun n => -(n : Int))
  | '+' :: rest => (decVal? rest).map (fun n => (n : Int))
  | '0' :: 'x' :: rest => (baseVal? 16 hexVal? rest).map (fun n => (n : Int))
  | '0' :: 'X' :: rest => (baseVal? 16 hexVal? rest).map (fun n => (n : Int))
  | '0' :: 'o' :: rest =>
      (baseVal? 8 (fun c => if isDigitChar c then some (c.toNat - 48) else none) rest).map
        (fun n => (n : Int))
  | '0' :: 'b' :: rest =>
      (baseVal? 2 (fun c => if isDigitChar c then some (c.toNat - 48) else none) rest).map
        (fun n => (n : Int))
  | cs => (decVal? cs).map (fun n => (n : Int))

/-- Big-endian byte encoding of `n` with the given width (the low
`8 * width` bits of `n`). -/
def natBytesBE (width n : Nat) : List Nat :=
  (List.range width).map (fun k => n / 256 ^ (width - 1 - k) % 256)

/-- A `uint256` ABI word. -/
def bytes32 (n : Nat) : List Nat := natBytesBE 32 n

/-- A 20-byte address. -/
def bytes20 (n : Nat) : List Nat := natBytesBE 20 n

/-- Lowercase hex digit character. -/
def hexChar (d : Nat) : Char :=
  if d < 10 then Char.ofNat (48 + d) else Char.ofNat (87 + d)

/-- Fixed-width lowercase hex rendering (how ethers/merkletreejs render
hashes, minus the `0x` prefix). -/
def natToHex (width n : Nat) : String :=
  String.mk ((List.range width).map (fun k => hexChar (n / 16 ^ (width - 1 - k) % 16)))

/-- `0x`-prefixed lowercase 64-hex-digit rendering of a 32-byte hash. -/
def toHexRoot (n : Nat) : String := "0x" ++ natToHex 64 n

/-! ## Merkle engine — `src/velora-verifier/lib/merkle/generator.ts` -/

/-- `MerkleFormat` (`'openzeppelin' | 'uniswap' | 'custom'`). -/
inductive MerkleFormat where
  | openzeppelin : MerkleFormat
  | uniswap : MerkleFormat
  | custom : MerkleFormat
deriving DecidableEq

def formatName : MerkleFormat → String
  | .openzeppelin => "openzeppelin"
  | .uniswap => "uniswap"
  | .custom => "custom"

/-- `DistributionData` (`types/distribution.ts`): the fields the merkle
engine and orchestrator read.  `index` is the optional payload-supplied
index field (unused by tree construction, which is positional). -/
structure DistributionData where
  address : String
  amount : String
  index : Option Int
deriving DecidableEq

def dummyEntry : DistributionData := ⟨"", "", none⟩

/-- ethers `getAddress` restricted to its call sites here: every caller
lowercases the address first, so the ICAP and mixed-case-checksum branches
are unreachable and a lowercase `0x` + 40-hex-digit string parses to its
160-bit value; anything else throws (`none`). -/
def parseAddress? (s : String) : Option Nat :=
  let cs := (jsToLower s).data
  if cs.length = 42 ∧ cs.take 2 = ['0', 'x'] then baseVal? 16 hexVal? (cs.drop 2)
  else none

/-- ethers `getBigInt` + `uint256` bounds check used by `abiCoder.encode`
and `solidityPackedKeccak256`: `BigInt(value)` then `0 ≤ v < 2^256`,
anything else throws. -/
def toUint256? (s : String) : Option Nat :=
  match jsBigInt? s with
  | some v => if 0 ≤ v ∧ v < (2 : Int) ^ 256 then some v.toNat else none
  | none => none

/-- `generateLeaf(item, index, format)`.  The leaf preimages:
`openzeppelin` = `keccak256(keccak256(abi.encode(address, amount)))` (ABI
words are 32 bytes, address left-padded), `uniswap` =
`keccak256(abi.encode(index, address, amount))`, `custom` =
`keccak256(abi.encodePacked(address, amount))` (20 + 32 bytes).  The
address is lowercased first; ethers throws on an unparsable address or an
out-of-range amount. -/
def generateLeaf (item : DistributionData) (index : Nat) (format : MerkleFormat) :
    Except String Nat :=
  match parseAddress? (jsToLower item.address) with
  | none => .error "invalid address"
  | some addr =>
    match toUint256? item.amount with
    | none => .error "invalid BigNumberish value"
    | some amt =>
      match format with
      | .openzeppelin =>
          .ok (keccak256N (bytes32 (keccak256N (bytes32 addr ++ bytes32 amt))))
      | .uniswap =>
          .ok (keccak256N (bytes32 index ++ bytes32 addr ++ bytes32 amt))
      | .custom =>
          .ok (keccak256N (bytes20 addr ++ bytes32 amt))

/-- merkletreejs parent combination with `sortPairs: true`: the two
children are sorted ascending (byte-wise, i.e. numerically on the 32-byte
values) and concatenated before hashing. -/
def combineHashes (a b : Nat) : Nat :=
  if b < a then keccak256N (bytes32 b ++ bytes32 a)
  else keccak256N (bytes32 a ++ bytes32 b)

/-- One step of `verifyProof`'s loop: `computedHash < proofElement` is a
JavaScript comparison of two lowercase `0x`-hex strings of equal length,
which orders exactly like the hash values. -/
def verifyStep (computed proofEl : Nat) : Nat :=
  if computed < proofEl then keccak256N (bytes32 computed ++ bytes32 proofEl)
  else keccak256N (bytes32 proofEl ++ bytes32 computed)

/-- One merkletreejs layer step: pairs are combined left to right, and with
an odd node count the last node is promoted unchanged (`duplicateOdd` is
off). -/
def nextLayer : List Nat → List Nat
  | a :: b :: rest => combineHashes a b :: nextLayer rest
  | l => l

/-- Root of the layer stack above `l` (fuel-based structural recursion; the
fuel `l.length` always suffices since each layer strictly shrinks). -/
def rootFromAux : Nat → List Nat → Nat
  | 0, l => l.headD 0
  | fuel + 1, l => if l.length ≤ 1 then l.headD 0 else rootFromAux fuel (nextLayer l)

def rootFrom (l : List Nat) : Nat := rootFromAux l.length l

/-- merkletreejs `getProof` for the leaf at `idx`: at every layer the pair
sibling (`idx - 1` for a right node, `idx + 1` for a left node) is emitted
when it exists, and the index halves. -/
def proofFromAux : Nat → List Nat → Nat → List Nat
  | 0, _, _ => []
  | fuel + 1, l, idx =>
    if l.length ≤ 1 then []
    else
      let pairIdx := if idx % 2 == 1 then idx - 1 else idx + 1
      (if pairIdx < l.length then [l.getD pairIdx 0] else []) ++
        proofFromAux fuel (nextLayer l) (idx / 2)

def proofFrom (l : List Nat) (idx : Nat) : List Nat := proofFromAux l.length l idx

/-- merkletreejs's `indexOf` scan over the leaves (first match). -/
def listIndexOf? : List Nat → Nat → Option Nat
  | [], _ => none
  | x :: rest, v => if x = v then some 0 else (listIndexOf? rest v).map (· + 1)

/-- merkletreejs `getProof(leaf)` without an index: the first leaf equal to
`leaf` (Buffer equality) is located; an absent leaf yields an empty proof. -/
def getProofByLeaf (leaves : List Nat) (leaf : Nat) : List Nat :=
  match listIndexOf? leaves leaf with
  | some i => proofFrom leaves i
  | none => []

/-- JavaScript `Map.set` on an association list: replace the value of an
existing key in place, otherwise append (keys stay unique, insertion
ordered). -/
def mapSet : List (String × List Nat) → String → List Nat → List (String × List Nat)
  | [], k, v => [(k, v)]
  | p :: rest, k, v => if p.1 = k then (k, v) :: rest else p :: mapSet rest k v

/-- JavaScript `Map.get`. -/
def mapGet? (m : List (String × List Nat)) (k : String) : Option (List Nat) :=
  (m.find? (fun p => p.1 == k)).map Prod.snd

/-- `MerkleTreeData`: `root` is the `getHexRoot()` string, `leaves` the leaf
hashes in input order, `proofs` the map from lowercase address to hex proof. -/
structure MerkleTreeData where
  root : String
  leaves : List Nat
  proofs : List (String × List Nat)
deriving DecidableEq

/-- Leaves of a distribution: `distribution.map(generateLeaf item index
format)` with the positional index; the first ethers throw aborts the map. -/
def computeLeavesAux (format : MerkleFormat) :
    List DistributionData → Nat → Except String (List Nat)
  | [], _ => .ok []
  | item :: rest, i =>
    match generateLeaf item i format with
    | .error e => .error e
    | .ok leaf =>
      match computeLeavesAux format rest (i + 1) with
      | .error e => .error e
      | .ok ls => .ok (leaf :: ls)

/-- `generateMerkleTree(distribution, format)`: throws on an empty
distribution, hashes the leaves positionally, builds the sorted-pairs tree,
and stores `tree.getHexProof(leaves[index])` under each entry's lowercased
address (later entries overwrite earlier ones with the same key). -/
def generateMerkleTree (distribution : List DistributionData) (format : MerkleFormat) :
    Except String MerkleTreeData :=
  if distribution.isEmpty then .error "Distribution data is empty"
  else
    match computeLeavesAux format distribution 0 with
    | .error e => .error e
    | .ok leaves =>
      let proofs := (distribution.enum).foldl
        (fun m p => mapSet m (jsToLower p.2.address) (getProofByLeaf leaves (leaves.getD p.1 0)))
        []
      .ok ⟨toHexRoot (rootFrom leaves), leaves, proofs⟩

/-- `verifyProof(address, amount, proof, root, format, index?)`: recompute
the leaf (with `index || 0`), fold the proof with the sorted-pair rule, and
compare to `root` case-insensitively.  Throws (like the ethers encoders it
calls) on an unparsable address or amount. -/
def verifyProof (address amount : String) (proof : List Nat) (root : String)
    (format : MerkleFormat) (index : Option Nat) : Except String Bool :=
  match generateLeaf ⟨address, amount, none⟩ (index.getD 0) format with
  | .error e => .error e
  | .ok leaf =>
    let computed := proof.foldl verifyStep leaf
    .ok (jsToLower (toHexRoot computed) == jsToLower root)

/-- One trial of `detectMerkleFormat`: build the tree of the first 10
entries under `format` and compare its root to the expected root
case-insensitively; a throwing build counts as no match (the `catch`
branch). -/
def formatMatches (sampleData : List DistributionData) (expectedRoot : String)
    (format : MerkleFormat) : Bool :=
  match generateMerkleTree (sampleData.take 10) format with
  | .ok tree => jsToLower tree.root == jsToLower expectedRoot
  | .error _ => false

/-- `detectMerkleFormat(sampleData, expectedRoot)`: try the three formats in
order on the first 10 entries, returning the first whose root matches;
`null` when nothing matches. -/
def detectMerkleFormat (sampleData : List DistributionData) (expectedRoot : String) :
    Option MerkleFormat :=
  [MerkleFormat.openzeppelin, MerkleFormat.uniswap, MerkleFormat.custom].find?
    (formatMatches sampleData expectedRoot)

/-! ## Verification orchestrator — `src/lib/merkle/verifier.ts` -/

/-- Return record of `verifyMerkleRoot` (field `success` is the root
match). -/
structure MerkleRootResult where
  success : Bool
  computedRoot : String
  format : MerkleFormat
  details : String
deriving DecidableEq

/-- `verifyMerkleRoot(distribution, expectedRoot, format?)`: auto-detect the
format when none is given (defaulting to `custom`), build the tree (a build
throw propagates), and compare roots case-insensitively. -/
def verifyMerkleRoot (distribution : List DistributionData) (expectedRoot : String)
    (format : Option MerkleFormat) : Except String MerkleRootResult :=
  let detectedFormat := format.getD ((detectMerkleFormat distribution expectedRoot).getD .custom)
  match generateMerkleTree distribution detectedFormat with
  | .error e => .error e
  | .ok merkleData =>
    let computedRoot := merkleData.root
    let success := jsToLower computedRoot == jsToLower expectedRoot
    .ok ⟨success, computedRoot, detectedFormat,
      if success then
        "Merkle root verified successfully using " ++ formatName detectedFormat ++ " format"
      else
        "Merkle root mismatch. Expected: " ++ expectedRoot ++ ", Computed: " ++ computedRoot⟩

/-- `ValidationCheck` (the verifier's checks always populate `details`, so
it is not optional here). -/
structure ValidationCheck where
  name : String
  status : String
  description : String
  details : String
  severity : String
deriving DecidableEq

def dummyCheck : ValidationCheck := ⟨"", "", "", "", ""⟩

/-- `isValidAddress`: `/^0x[a-fA-F0-9]{40}$/`. -/
def isValidAddress (address : String) : Bool :=
  let cs := address.data
  cs.length == 42 && cs.take 2 == ['0', 'x'] && (cs.drop 2).all (fun c => (hexVal? c).isSome)

/-- The verifier's per-entry invalid-amount test (check 3): missing (empty)
amount, a `.`/`e`/`E` in the string, a `BigInt`-unparsable string, or a
negative value. -/
def amountInvalid (s : String) : Bool :=
  if s == "" then true
  else if s.data.any (fun c => c == '.' || c == 'e' || c == 'E') then true
  else
    match jsBigInt? s with
    | some v => v < 0
    | none => true

/-- First-occurrence deduplication, JavaScript `Map`/`Set` key order. -/
def jsDedupFirst (l : List String) : List String :=
  l.foldl (fun acc k => if acc.contains k then acc else acc ++ [k]) []

/-- One `reduce` step of the verifier's total: `String(d.amount || '0')`,
skip `.`/`e`/`E` and unparsable strings, otherwise add. -/
def addAmount (sum : Int) (s : String) : Int :=
  let amountStr := if s == "" then "0" else s
  if amountStr.data.any (fun c => c == '.' || c == 'e' || c == 'E') then sum
  else
    match jsBigInt? amountStr with
    | some v => sum + v
    | none => sum

def totalAmountOf (ds : List DistributionData) : Int :=
  ds.foldl (fun sum d => addAmount sum d.amount) 0

/-- Check 1, "Distribution Not Empty". -/
def checkNotEmpty (ds : List DistributionData) : ValidationCheck :=
  ⟨"Distribution Not Empty",
   if ds.length > 0 then "passed" else "failed",
   "Verify distribution contains recipients",
   "Found " ++ toString ds.length ++ " recipients",
   "critical"⟩

/-- Check 2, "Address Validation". -/
def checkAddresses (ds : List DistributionData) : ValidationCheck :=
  let invalid := ds.filter (fun d => !isValidAddress d.address)
  ⟨"Address Validation",
   if invalid.length == 0 then "passed" else "failed",
   "All addresses must be valid Ethereum addresses",
   if invalid.length > 0 then "Found " ++ toString invalid.length ++ " invalid addresses"
   else "All addresses are valid",
   "critical"⟩

/-- Check 3, "Amount Validation" (zero is allowed; only missing, malformed,
or negative amounts count). -/
def checkAmounts (ds : List DistributionData) : ValidationCheck :=
  let invalid := ds.filter (fun d => amountInvalid d.amount)
  ⟨"Amount Validation",
   if invalid.length == 0 then "passed" else "failed",
   "All amounts must be non-negative",
   if invalid.length > 0 then "Found " ++ toString invalid.length ++ " invalid amounts"
   else "All amounts are valid",
   "critical"⟩

/-- Check 4, "Duplicate Check" (a warning, not a failure). -/
def checkDuplicates (ds : List DistributionData) : ValidationCheck :=
  let lcs := ds.map (fun d => jsToLower d.address)
  let dups := (jsDedupFirst lcs).filter (fun k => lcs.count k > 1)
  let extra := (dups.map (fun k => lcs.count k - 1)).sum
  ⟨"Duplicate Check",
   if dups.length == 0 then "passed" else "warning",
   "Check for duplicate recipient addresses",
   if dups.length > 0 then
     "Found " ++ toString dups.length ++ " duplicate addresses with " ++
       toString extra ++ " duplicate entries"
   else "No duplicate addresses found",
   if dups.length > 0 then "medium" else "low"⟩

/-- Check 5, "Total Distribution" (always passes). -/
def checkTotal (ds : List DistributionData) : ValidationCheck :=
  let total := totalAmountOf ds
  let avg : Int := if ds.length > 0 then Int.tdiv total ds.length else 0
  ⟨"Total Distribution", "passed",
   "Total and average distribution amounts",
   "Total: " ++ toString total ++ ", Average: " ++ toString avg,
   "low"⟩

/-- `validateDistribution(distribution)` of the verifier (the orchestrator's
check list — distinct from the analytics engine's function of the same
name in `lib/validators/distribution.ts`). -/
def validateDistribution (ds : List DistributionData) : List ValidationCheck :=
  [checkNotEmpty ds, checkAddresses ds, checkAmounts ds, checkDuplicates ds, checkTotal ds]

structure VerificationErrorW where
  code : String
  message : String
deriving DecidableEq

structure MerkleRootCmp where
  expected : String
  computed : String
  matchRoot : Bool
deriving DecidableEq

/-- `VerificationResult` (the `match` field is `matchRoot` here; the
wall-clock metadata fields are outside the model). -/
structure VerificationResult where
  success : Bool
  merkleRoot : MerkleRootCmp
  checks : List ValidationCheck
  errors : List VerificationErrorW
  warnings : List VerificationErrorW
  proposalId : Option String
  spaceName : Option String
  recipientCount : Nat
  totalAmount : String
deriving DecidableEq

/-- Warning code: `name.toUpperCase().replace(/\s+/g, '_')` (check names
contain single spaces). -/
def warnCode (name : String) : String :=
  String.mk (name.data.map (fun c => if c = ' ' then '_' else jsCharUpper c))

/-- `createVerificationResult(distribution, expectedRoot, proposalId?,
spaceName?)`: verify the root (auto-detected format), run the checks, and
assemble the result.  An exception from the tree build propagates to the
caller — there is no `try` here. -/
def createVerificationResult (distribution : List DistributionData) (expectedRoot : String)
    (proposalId spaceName : Option String) : Except String VerificationResult :=
  match verifyMerkleRoot distribution expectedRoot none with
  | .error e => .error e
  | .ok mv =>
    let checks := validateDistribution distribution
    let totalAmount := totalAmountOf distribution
    .ok
      { success := mv.success && checks.all (fun c => c.status != "failed"),
        merkleRoot := ⟨expectedRoot, mv.computedRoot, mv.success⟩,
        checks := checks,
        errors := if mv.success then [] else [⟨"MERKLE_ROOT_MISMATCH", mv.details⟩],
        warnings := (checks.filter (fun c => c.status == "warning")).map
          (fun c => ⟨warnCode c.name, c.details⟩),
        proposalId := proposalId,
        spaceName := spaceName,
        recipientCount := distribution.length,
        totalAmount := toString totalAmount }

/-! ## Distribution payload normalizer — `src/app/api/verify/route.ts`,
`parseDistributionData`, array branch (shape 1) -/

mutual

/-- Decoded JSON-like payload values.  Numbers are modelled as integers
(the payloads normalized here carry integral numerics; the one
floating-point conversion, scientific-notation flattening, is modelled
exactly on rationals below).  Arrays and objects carry their own spine
types so that every function on them is structural (and kernel-reducible). -/
inductive Json where
  | null : Json
  | bool : Bool → Json
  | num : Int → Json
  | str : String → Json
  | arr : JsonList → Json
  | obj : JsonObj → Json

inductive JsonList where
  | nil : JsonList
  | cons : Json → JsonList → JsonList

inductive JsonObj where
  | nil : JsonObj
  | cons : String → Json → JsonObj → JsonObj

end

/-- Build an object value from a field list. -/
def mkObj : List (String × Json) → Json :=
  fun l => Json.obj (l.foldr (fun p acc => JsonObj.cons p.1 p.2 acc) JsonObj.nil)

/-- JavaScript truthiness of a defined value. -/
def jsTruthy : Json → Bool
  | .null => false
  | .bool b => b
  | .num n => n != 0
  | .str s => s != ""
  | .arr _ => true
  | .obj _ => true

/-- First field named `k` of an object spine. -/
def jsObjGet? : JsonObj → String → Option Json
  | .nil, _ => none
  | .cons key v rest, k => if key = k then some v else jsObjGet? rest k

/-- Property access `item[k]`; `none` is `undefined`.  (Access on a
primitive yields `undefined`; the normalizer's callers hand it object
elements.) -/
def jsGet? (item : Json) (k : String) : Option Json :=
  match item with
  | .obj kvs => jsObjGet? kvs k
  | _ => none

def jsObjKeys : JsonObj → List String
  | .nil => []
  | .cons key _ rest => key :: jsObjKeys rest

/-- `Object.keys`. -/
def jsKeys : Json → List String
  | .obj kvs => jsObjKeys kvs
  | _ => []

/-- The value of `item.k1 || item.k2 || ... || item.kn`: the first defined
truthy field, or the value of the last lookup (possibly a falsy value or
`undefined` = `none`) when all are falsy. -/
def jsOrChain (item : Json) : List String → Option Json
  | [] => none
  | [k] => jsGet? item k
  | k :: rest =>
    match jsGet? item k with
    | some v => if jsTruthy v then some v else jsOrChain item rest
    | none => jsOrChain item rest

mutual

/-- JavaScript `String(v)` on a decoded JSON value (`Array.prototype.toString`
joins the stringified elements with commas). -/
def jsToString : Json → String
  | .null => "null"
  | .bool b => if b then "true" else "false"
  | .num n => toString n
  | .str s => s
  | .arr l => jsToStringList l
  | .obj _ => "[object Object]"

def jsToStringList : JsonList → String
  | .nil => ""
  | .cons j .nil => jsToString j
  | .cons j (.cons j2 rest) => jsToString j ++ "," ++ jsToStringList (.cons j2 rest)

end

/-- `Math.floor(Number(s)).toString()` for the scientific-notation branch.
The strings reaching it contain no `.` (a decimal point was split off
first), so the grammar is `[sign] digits (e|E) [sign] digits`; the value is
floored exactly on rationals (IEEE double rounding is not modelled — no
claim here depends on magnitudes where it differs), and an unparsable
string is `NaN`, which stringifies as "NaN". -/
def jsNumberFloorString (s : String) : String :=
  let parse : List Char → Option Int := fun cs =>
    let core : List Char → Option Int := fun cs2 =>
      match cs2.span (fun c => c ≠ 'e' ∧ c ≠ 'E') with
      | (mant, _ :: expPart) =>
        let mantVal? : Option Int :=
          match mant with
          | '-' :: ds => (decVal? ds).map (fun n => -(n : Int))
          | '+' :: ds => (decVal? ds).map (fun n => (n : Int))
          | ds => (decVal? ds).map (fun n => (n : Int))
        let expVal? : Option Int :=
          match expPart with
          | '-' :: ds => (decVal? ds).map (fun n => -(n : Int))
          | '+' :: ds => (decVal? ds).map (fun n => (n : Int))
          | ds => (decVal? ds).map (fun n => (n : Int))
        match mantVal?, expVal? with
        | some m, some e =>
          if 0 ≤ e then some (m * 10 ^ e.toNat)
          else some (Int.fdiv m (10 ^ (-e).toNat))
        | _, _ => none
      | (_, []) => none
    core cs
  match parse (jsTrim s.data) with
  | some v => toString v
  | none => "NaN"

/-- An entry produced by the array branch: `address` is the raw field value
(not stringified), `amount` the processed string, `index` the payload's
`index` field if defined, else the position. -/
structure ParsedEntry where
  address : Json
  amount : String
  index : Json

def dummyParsed : ParsedEntry := ⟨Json.null, "", Json.null⟩

/-- Amount post-processing of the array branch: absent/null amounts become
"0" silently; a decimal point keeps the integer part (`'0'` if empty) with
a logged decimal warning; `e`/`E` goes through float-floor with a logged
scientific warning. -/
def processAmount (amount? : Option Json) : String × List String :=
  match amount? with
  | none => ("0", [])
  | some .null => ("0", [])
  | some v =>
    let s := jsToString v
    let (s1, w1) :=
      if s.data.contains '.' then
        (match (s.splitOn ".").headD "" with
         | "" => "0"
         | t => t, ["decimal"])
      else (s, ([] : List String))
    if s1.data.any (fun c => c == 'e' || c == 'E') then
      (jsNumberFloorString s1, w1 ++ ["scientific"])
    else (s1, w1)

/-- One element of the array branch's `map` callback. -/
def parseArrayItem (item : Json) (index : Nat) :
    Except String (ParsedEntry × List (Nat × String)) :=
  let address? := jsOrChain item ["address", "recipient", "account", "wallet", "to"]
  let amount? := jsOrChain item ["amount", "value", "balance", "quantity", "tokens"]
  let addressTruthy := match address? with | some v => jsTruthy v | none => false
  if !addressTruthy then
    .error ("Missing address field in distribution entry " ++ toString index ++
      ". Available fields: " ++ String.intercalate ", " (jsKeys item))
  else
    let pa := processAmount amount?
    .ok (⟨address?.getD Json.null, pa.1,
          (jsGet? item "index").getD (Json.num index)⟩,
         pa.2.map (fun w => (index, w)))

def parseArrayItemsAux : List Json → Nat → Except String (List ParsedEntry × List (Nat × String))
  | [], _ => .ok ([], [])
  | it :: rest, i =>
    match parseArrayItem it i with
    | .error e => .error e
    | .ok (entry, ws) =>
      match parseArrayItemsAux rest (i + 1) with
      | .error e => .error e
      | .ok (entries, ws2) => .ok (entry :: entries, ws ++ ws2)

/-- `parseDistributionData` restricted to an array payload (shape 1, the
only branch an ordered sequence reaches): an empty array throws, otherwise
each element is mapped in order and the first element failure aborts the
call.  The second component collects the `console.warn` warnings with
their entry index. -/
def parseDistributionArray (items : List Json) :
    Except String (List ParsedEntry × List (Nat × String)) :=
  if items.isEmpty then .error "Distribution data array is empty"
  else parseArrayItemsAux items 0

/-! ## Amount validator — `lib/validators/amounts.ts` -/

structure AmountValidation where
  isValid : Bool
  amount : Option Int
  formatted : Option String
  error : Option String
  warning : Option String
deriving DecidableEq

/-- ethers v6 `parseUnits(value, decimals)` on a decimal string: optional
sign, digits around an optional point (at least one digit overall), at
most `decimals` fractional digits; the value scaled by `10^decimals`. -/
def parseUnitsE (value : String) (decimals : Nat) : Except String Int :=
  let (sign, body) :=
    match value.data with
    | '-' :: rest => ((-1 : Int), rest)
    | cs => ((1 : Int), cs)
  match body.span (fun c => c ≠ '.') with
  | (whole, rest) =>
    let frac := match rest with | [] => [] | _ :: f => f
    if !(whole.all isDigitChar) ∨ !(frac.all isDigitChar) ∨
        (whole.isEmpty ∧ frac.isEmpty) then
      .error "invalid decimal string"
    else if decimals < frac.length then
      .error "too many decimals"
    else
      let w := (decVal? whole).getD 0
      let f := (decVal? frac).getD 0
      .ok (sign * ((w : Int) * 10 ^ decimals + (f : Int) * 10 ^ (decimals - frac.length)))

/-- `validateAmount(amount, decimals)` for string input (its call sites
pass `DistributionData.amount`, a string): a pure-digit string is taken as
already-scaled wei, anything else goes through `parseUnits`; a zero or
negative result is invalid ("Amount must be positive"); amounts above
`parseUnits('1000000000000', decimals)` are valid with a warning. -/
def validateAmount (amount : String) (decimals : Nat) : AmountValidation :=
  let parsed : Except String Int :=
    if !amount.data.isEmpty ∧ amount.data.all isDigitChar then
      .ok (((decVal? amount.data).getD 0 : Nat) : Int)
    else parseUnitsE amount decimals
  match parsed with
  | .error e => ⟨false, none, none, some e, none⟩
  | .ok v =>
    if v ≤ 0 then ⟨false, some v, none, some "Amount must be positive", none⟩
    else
      let maxSupply : Int := (10 : Int) ^ 12 * (10 : Int) ^ decimals
      if v > maxSupply then
        ⟨true, some v, some "formatted", none, some "Amount is unusually large"⟩
      else ⟨true, some v, some "formatted", none, none⟩

/-! ## Concentration risk — `lib/validators/distribution.ts` -/

inductive RiskLevel where
  | low : RiskLevel
  | medium : RiskLevel
  | high : RiskLevel
deriving DecidableEq

def riskName : RiskLevel → String
  | .low => "low"
  | .medium => "medium"
  | .high => "high"

/-- One step of a stable descending insertion sort. -/
def insertDesc (a : Int) : List Int → List Int
  | [] => [a]
  | b :: rest => if b ≤ a then a :: b :: rest else b :: insertDesc a rest

/-- Descending `BigInt` sort (the comparator at lines 266-270 under a
stable `Array.prototype.sort`), implemented as a stable insertion sort so
that it is structural and kernel-reducible. -/
def sortDescInt (l : List Int) : List Int := l.foldr insertDesc []

/-- `calculateConcentrationRisk(amounts)`: sort descending, sum the top
`Math.max(1, Math.floor(length * 0.1))` amounts — `Math.floor(n * 0.1)`
equals `n / 10` for every JavaScript array length, since `n * 0.1` rounds
to a double in `[n/10, n/10 + 1/2)` — and classify the integer percentage
`Number(top * 100n / total)`. -/
def calculateConcentrationRisk (amounts : List Int) : RiskLevel :=
  if amounts.isEmpty then .low
  else
    let sorted := sortDescInt amounts
    let total := amounts.foldl (· + ·) 0
    if total == 0 then .low
    else
      let top10PercentCount := max 1 (sorted.length / 10)
      let top10PercentTotal := (sorted.take top10PercentCount).foldl (· + ·) 0
      let top10PercentShare := Int.tdiv (top10PercentTotal * 100) total
      if top10PercentShare > 80 then .high
      else if top10PercentShare > 50 then .medium
      else .low

/-- The "Concentration Risk" check assembled by the analytics engine's
`validateDistribution` (lines 193-201 of `lib/validators/distribution.ts`):
`high` surfaces as a medium-severity warning, anything else passes. -/
def concentrationRiskCheck (validAmounts : List Int) : ValidationCheck :=
  let risk := calculateConcentrationRisk validAmounts
  ⟨"Concentration Risk",
   if risk = .high then "warning" else "passed",
   "Distribution concentration analysis",
   "Concentration risk: " ++ riskName risk,
   if risk = .high then "medium" else "low"⟩

/-- Modelled from the spec: the concentration rule as §4.4 words it — "sum
the top ceil(10%) (minimum 1) share of total; share > 80% → high, > 50% →
medium, else low" — with the share compared exactly.  Used only to compare
the specified rule against `calculateConcentrationRisk`. -/
def concentrationRiskCeilSpec (amounts : List Int) : RiskLevel :=
  if amounts.isEmpty then .low
  else
    let sorted := sortDescInt amounts
    let total := amounts.foldl (· + ·) 0
    if total == 0 then .low
    else
      let topCount := max 1 ((sorted.length + 9) / 10)
      let topTotal := (sorted.take topCount).foldl (· + ·) 0
      if topTotal * 100 > 80 * total then .high
      else if topTotal * 100 > 50 * total then .medium
      else .low

/-! ## Lemmas: sorted-pair combination -/

/-- The verifier's comparison step computes exactly the tree's sorted-pair
combination. -/
theorem verifyStep_eq_combine (a b : Nat) : verifyStep a b = combineHashes a b := by
  unfold verifyStep combineHashes
  rcases Nat.lt_trichotomy a b with h | h | h
  · rw [if_pos h, if_neg (Nat.not_lt.mpr (Nat.le_of_lt h))]
  · subst h
    simp
  · rw [if_neg (Nat.not_lt.mpr (Nat.le_of_lt h)), if_pos h]

/-- The sorted-pair combination is commutative. -/
theorem combineHashes_comm (a b : Nat) : combineHashes a b = combineHashes b a := by
  unfold combineHashes
  rcases Nat.lt_trichotomy a b with h | h | h
  · rw [if_neg (Nat.not_lt.mpr (Nat.le_of_lt h)), if_pos h]
  · subst h
    rfl
  · rw [if_pos h, if_neg (Nat.not_lt.mpr (Nat.le_of_lt h))]

/-- The verifier's step is commutative. -/
theorem verifyStep_comm (a b : Nat) : verifyStep a b = verifyStep b a := by
  rw [verifyStep_eq_combine, verifyStep_eq_combine, combineHashes_comm]

/-! ## Lemmas: layer construction and proof reconstruction -/

theorem nextLayer_length : ∀ l : List Nat, (nextLayer l).length = (l.length + 1) / 2
  | [] => by simp [nextLayer]
  | [_] => by simp [nextLayer]
  | _ :: _ :: rest => by
    have ih := nextLayer_length rest
    simp only [nextLayer, List.length_cons, ih]
    omega

/-- Where each node of the next layer comes from: pair partner when it
exists, otherwise promotion of the odd last node. -/
theorem nextLayer_getD : ∀ (l : List Nat) (idx : Nat), idx < l.length →
    (nextLayer l).getD (idx / 2) 0 =
      if idx % 2 = 1 then combineHashes (l.getD (idx - 1) 0) (l.getD idx 0)
      else if idx + 1 < l.length then combineHashes (l.getD idx 0) (l.getD (idx + 1) 0)
      else l.getD idx 0
  | [], idx, h => by simp at h
  | [a], idx, h => by
    have hidx : idx = 0 := by simpa using h
    subst hidx
    simp [nextLayer]
  | a :: b :: rest, 0, _ => by simp [nextLayer]
  | a :: b :: rest, 1, _ => by simp [nextLayer]
  | a :: b :: rest, n + 2, h => by
    have hn : n < rest.length := by simpa using h
    have ih := nextLayer_getD rest n hn
    have hdiv : (n + 2) / 2 = n / 2 + 1 := by omega
    have hmod : (n + 2) % 2 = n % 2 := by omega
    simp only [nextLayer, hdiv, hmod, List.getD_cons_succ]
    rw [ih]
    rcases Nat.mod_two_eq_zero_or_one n with h0 | h1
    · simp only [h0]
      have hcond : n + 2 + 1 < (a :: b :: rest).length ↔ n + 1 < rest.length := by
        simp
        omega
      by_cases hlt : n + 1 < rest.length
      · rw [if_neg (by omega), if_pos hlt, if_neg (by omega),
          if_pos (by simpa using hcond.mpr hlt)]
      · rw [if_neg (by omega), if_neg hlt, if_neg (by omega),
          if_neg (by simpa [hcond] using hlt)]
    · have hge : 1 ≤ n := by omega
      rw [if_pos h1, if_pos (by omega)]
      have h21 : n + 2 - 1 = (n - 1) + 2 := by omega
      rw [h21]
      simp only [List.getD_cons_succ]

/-- Folding the generated proof from the leaf at `idx` with the verifier's
step reproduces the root (any fuel at least the layer count works). -/
theorem reconstructAux : ∀ (fuel : Nat) (l : List Nat) (idx : Nat),
    l.length ≤ fuel + 1 → idx < l.length →
    (proofFromAux fuel l idx).foldl verifyStep (l.getD idx 0) = rootFromAux fuel l := by
  intro fuel
  induction fuel with
  | zero =>
    intro l idx hl hi
    match l, hl, hi with
    | [x], _, hi =>
      have : idx = 0 := by simpa using hi
      subst this
      simp [proofFromAux, rootFromAux]
  | succ n ih =>
    intro l idx hl hi
    by_cases hshort : l.length ≤ 1
    · match l, hshort, hi with
      | [x], _, hi =>
        have : idx = 0 := by simpa using hi
        subst this
        simp [proofFromAux, rootFromAux]
    · have hlen2 : 2 ≤ l.length := by omega
      have hstep :
          (proofFromAux (n + 1) l idx).foldl verifyStep (l.getD idx 0) =
            (proofFromAux n (nextLayer l) (idx / 2)).foldl verifyStep
              ((nextLayer l).getD (idx / 2) 0) := by
        simp only [proofFromAux, if_neg hshort, List.foldl_append]
        congr 1
        rw [nextLayer_getD l idx hi]
        rcases Nat.mod_two_eq_zero_or_one idx with h0 | h1
        · by_cases hlt : idx + 1 < l.length
          · simp [h0, hlt, verifyStep_eq_combine]
          · simp [h0, hlt]
        · have hpair : idx - 1 < l.length := by omega
          simp [h1, hpair, verifyStep_eq_combine, combineHashes_comm]
      rw [hstep]
      have hl2 : (nextLayer l).length ≤ n + 1 := by
        rw [nextLayer_length]
        omega
      have hi2 : idx / 2 < (nextLayer l).length := by
        rw [nextLayer_length]
        omega
      rw [ih (nextLayer l) (idx / 2) hl2 hi2]
      simp only [rootFromAux, if_neg hshort]

/-- Folding `proofFrom l idx` from the leaf at `idx` yields `rootFrom l`. -/
theorem proofFrom_foldl (l : List Nat) (idx : Nat) (h : idx < l.length) :
    (proofFrom l idx).foldl verifyStep (l.getD idx 0) = rootFrom l :=
  reconstructAux l.length l idx (by omega) h

/-- A member of the list is found by `listIndexOf?` at a valid index
holding the value itself. -/
theorem listIndexOf_mem : ∀ (l : List Nat) (v : Nat), v ∈ l →
    ∃ i, listIndexOf? l v = some i ∧ i < l.length ∧ l.getD i 0 = v
  | [], v, h => by simp at h
  | x :: rest, v, h => by
    by_cases hx : x = v
    · exact ⟨0, by simp [listIndexOf?, hx], by simp, by simp [hx]⟩
    · have hmem : v ∈ rest := by
        rcases List.mem_cons.mp h with h1 | h1
        · exact absurd h1.symm hx
        · exact h1
      rcases listIndexOf_mem rest v hmem with ⟨i, hfind, hlt, hval⟩
      exact ⟨i + 1, by simp [listIndexOf?, hx, hfind], by simpa using hlt, by simpa using hval⟩

/-- `getProofByLeaf` of a leaf that occurs in the list reconstructs the
root when folded from that leaf value. -/
theorem getProofByLeaf_foldl (leaves : List Nat) (leaf : Nat) (h : leaf ∈ leaves) :
    (getProofByLeaf leaves leaf).foldl verifyStep leaf = rootFrom leaves := by
  unfold getProofByLeaf
  rcases listIndexOf_mem leaves leaf h with ⟨i, hfind, hlt, hval⟩
  rw [hfind, ← hval]
  exact proofFrom_foldl leaves i hlt

/-! ## Lemmas: lowercase hex strings -/

theorem jsCharLower_hexChar : ∀ d : Nat, d < 16 → jsCharLower (hexChar d) = hexChar d := by
  decide

theorem jsToLower_append (a b : String) : jsToLower (a ++ b) = jsToLower a ++ jsToLower b := by
  cases a with
  | mk la =>
    cases b with
    | mk lb =>
      show String.mk ((la ++ lb).map jsCharLower) = String.mk (la.map jsCharLower ++ lb.map jsCharLower)
      rw [List.map_append]

theorem jsToLower_natToHex (w n : Nat) : jsToLower (natToHex w n) = natToHex w n := by
  unfold jsToLower natToHex
  show String.mk (((List.range w).map fun k => hexChar (n / 16 ^ (w - 1 - k) % 16)).map jsCharLower) = _
  rw [List.map_map]
  congr 1
  apply List.map_congr_left
  intro k _
  exact jsCharLower_hexChar _ (Nat.mod_lt _ (by norm_num))

/-- The hex rendering of a hash is already lowercase. -/
theorem jsToLower_toHexRoot (n : Nat) : jsToLower (toHexRoot n) = toHexRoot n := by
  unfold toHexRoot
  rw [jsToLower_append, jsToLower_natToHex]
  rfl

/-! ## Lemmas: leaf list characterization -/

theorem computeLeavesAux_ok : ∀ (d : List DistributionData) (start : Nat)
    (fmt : MerkleFormat) (ls : List Nat), computeLeavesAux fmt d start = .ok ls →
    ls.length = d.length ∧
      ∀ k, k < d.length →
        generateLeaf (d.getD k dummyEntry) (start + k) fmt = .ok (ls.getD k 0)
  | [], start, fmt, ls, h => by
    simp only [computeLeavesAux] at h
    cases h
    simp
  | item :: rest, start, fmt, ls, h => by
    simp only [computeLeavesAux] at h
    cases hleaf : generateLeaf item start fmt with
    | error e => rw [hleaf] at h; cases h
    | ok leaf =>
      rw [hleaf] at h
      cases hrest : computeLeavesAux fmt rest (start + 1) with
      | error e => rw [hrest] at h; cases h
      | ok ls2 =>
        rw [hrest] at h
        cases h
        rcases computeLeavesAux_ok rest (start + 1) fmt ls2 hrest with ⟨hlen, hall⟩
        refine ⟨by simpa using hlen, ?_⟩
        intro k hk
        cases k with
        | zero => simpa using hleaf
        | succ k2 =>
          have hk2 : k2 < rest.length := by simpa using hk
          have := hall k2 hk2
          simpa [Nat.add_comm, Nat.add_assoc, Nat.add_left_comm] using this

/-! ## Lemmas: the proofs map -/

theorem mapGet_mapSet : ∀ (m : List (String × List Nat)) (k' k : String) (v : List Nat),
    mapGet? (mapSet m k' v) k = if k' = k then some v else mapGet? m k
  | [], k', k, v => by
    simp only [mapSet, mapGet?, List.find?]
    by_cases h : k' = k
    · simp [h]
    · have hb : (k' == k) = false := by simpa using h
      simp [h, hb]
  | p :: rest, k', k, v => by
    by_cases hp : p.1 = k'
    · simp only [mapSet, if_pos hp, mapGet?, List.find?]
      by_cases h : k' = k
      · simp [h]
      · have hkk : (k' == k) = false := by simpa using h
        have hpk : (p.1 == k) = false := by simp [hp, h]
        simp [hkk, hpk, h, mapGet?]
    · simp only [mapSet, if_neg hp, mapGet?, List.find?]
      by_cases hfound : p.1 = k
      · have h1 : (p.1 == k) = true := by simpa using hfound
        have h2 : ¬k' = k := fun hk => hp (by rw [hfound, hk])
        simp [h1, h2, mapGet?, if_neg h2]
      · have h1 : (p.1 == k) = false := by simpa using hfound
        have := mapGet_mapSet rest k' k v
        simp only [h1, Bool.false_eq_true, if_false] at this ⊢
        simpa [mapGet?] using this

/-- Setting keys none of which is `k` leaves `k`'s binding unchanged. -/
theorem mapGet_foldl_not_mem (g : Nat → List Nat) :
    ∀ (ps : List (Nat × DistributionData)) (m : List (String × List Nat)) (k : String),
      (∀ p, p ∈ ps → jsToLower p.2.address ≠ k) →
      mapGet? (ps.foldl (fun m p => mapSet m (jsToLower p.2.address) (g p.1)) m) k = mapGet? m k
  | [], m, k, _ => rfl
  | p :: rest, m, k, h => by
    have hkey : jsToLower p.2.address ≠ k := h p (by simp)
    have hrest : ∀ q, q ∈ rest → jsToLower q.2.address ≠ k := fun q hq => h q (by simp [hq])
    simp only [List.foldl_cons]
    rw [mapGet_foldl_not_mem g rest _ k hrest, mapGet_mapSet, if_neg hkey]

/-- The binding stored for an entry that is the last occurrence of its key. -/
theorem mapGet_foldl_last (g : Nat → List Nat) :
    ∀ (d : List DistributionData) (s : Nat) (m : List (String × List Nat)) (i : Nat),
      i < d.length →
      (∀ j, i < j → j < d.length →
        jsToLower ((d.getD j dummyEntry).address) ≠ jsToLower ((d.getD i dummyEntry).address)) →
      mapGet? ((d.enumFrom s).foldl (fun m p => mapSet m (jsToLower p.2.address) (g p.1)) m)
          (jsToLower ((d.getD i dummyEntry).address)) = some (g (s + i))
  | [], _, _, i, hi, _ => by simp at hi
  | e :: rest, s, m, 0, _, hlast => by
    simp only [List.enumFrom, List.foldl_cons, List.getD_cons_zero]
    rw [mapGet_foldl_not_mem]
    · rw [mapGet_mapSet, if_pos rfl]
      simp
    · intro p hp hkey
      have hmem : p.2 ∈ rest := by
        have := List.enumFrom_map_snd (s + 1) rest
        exact this ▸ List.mem_map_of_mem Prod.snd hp
      rcases List.mem_iff_getElem.mp hmem with ⟨j, hj, hget⟩
      refine hlast (j + 1) (by omega) (by simpa using hj) ?_
      have : rest.getD j dummyEntry = p.2 := by
        rw [List.getD_eq_getElem _ _ hj, hget]
      simp only [List.getD_cons_succ, List.getD_cons_zero, this]
      exact hkey
  | e :: rest, s, m, i + 1, hi, hlast => by
    simp only [List.enumFrom, List.foldl_cons, List.getD_cons_succ]
    have hi2 : i < rest.length := by simpa using hi
    have hlast2 : ∀ j, i < j → j < rest.length →
        jsToLower ((rest.getD j dummyEntry).address) ≠
          jsToLower ((rest.getD i dummyEntry).address) := by
      intro j hij hj
      have := hlast (j + 1) (by omega) (by simpa using hj)
      simpa using this
    have hres := mapGet_foldl_last g rest (s + 1) (mapSet m (jsToLower e.address) (g s)) i hi2 hlast2
    have harith : s + 1 + i = s + (i + 1) := by omega
    rw [harith] at hres
    exact hres

/-- Unfolding a successful `generateMerkleTree` call. -/
theorem generateMerkleTree_ok (d : List DistributionData) (fmt : MerkleFormat)
    (t : MerkleTreeData) (h : generateMerkleTree d fmt = .ok t) :
    d ≠ [] ∧ computeLeavesAux fmt d 0 = .ok t.leaves ∧
      t.root = toHexRoot (rootFrom t.leaves) ∧
      t.proofs = (d.enum).foldl
        (fun m p => mapSet m (jsToLower p.2.address)
          (getProofByLeaf t.leaves (t.leaves.getD p.1 0))) [] := by
  unfold generateMerkleTree at h
  by_cases hd : d.isEmpty
  · rw [if_pos hd] at h
    cases h
  · rw [if_neg hd] at h
    cases hleaves : computeLeavesAux fmt d 0 with
    | error e => rw [hleaves] at h; cases h
    | ok leaves =>
      rw [hleaves] at h
      cases h
      exact ⟨by simpa using hd, rfl, rfl, rfl⟩

/-- `generateLeaf` reads only the address and amount of its item (the
`index` metadata field is ignored; the positional index is a separate
argument). -/
theorem generateLeaf_index_irrel (a m : String) (x y : Option Int) (i : Nat)
    (fmt : MerkleFormat) :
    generateLeaf ⟨a, m, x⟩ i fmt = generateLeaf ⟨a, m, y⟩ i fmt := rfl

/-- The leaf stored at a valid position is a member of the leaf list. -/
theorem getD_mem_of_lt (l : List Nat) (i : Nat) (h : i < l.length) : l.getD i 0 ∈ l := by
  rw [List.getD_eq_getElem l 0 h]
  exact List.getElem_mem h

/-- C1 (amended): the proof round-trip for an entry that is the last
occurrence of its lowercase address, verified at its positional index. -/
theorem proof_roundtrip_last_occurrence (d : List DistributionData) (fmt : MerkleFormat)
    (t : MerkleTreeData) (i : Nat)
    (h1 : generateMerkleTree d fmt = .ok t)
    (h2 : i < d.length)
    (h3 : ∀ j, i < j → j < d.length →
      jsToLower ((d.getD j dummyEntry).address) ≠ jsToLower ((d.getD i dummyEntry).address)) :
    verifyProof (d.getD i dummyEntry).address (d.getD i dummyEntry).amount
      ((mapGet? t.proofs (jsToLower ((d.getD i dummyEntry).address))).getD [])
      t.root fmt (some i) = .ok true := by
  rcases generateMerkleTree_ok d fmt t h1 with ⟨_, hleaves, hroot, hproofs⟩
  rcases computeLeavesAux_ok d 0 fmt t.leaves hleaves with ⟨hlen, hall⟩
  have hleaf : generateLeaf (d.getD i dummyEntry) i fmt = .ok (t.leaves.getD i 0) := by
    have := hall i h2
    simpa using this
  have hstored :
      mapGet? t.proofs (jsToLower ((d.getD i dummyEntry).address)) =
        some (getProofByLeaf t.leaves (t.leaves.getD i 0)) := by
    rw [hproofs]
    have henum : d.enum = d.enumFrom 0 := rfl
    rw [henum]
    have := mapGet_foldl_last (fun idx => getProofByLeaf t.leaves (t.leaves.getD idx 0))
      d 0 [] i h2 h3
    simpa using this
  have hilt : i < t.leaves.length := by rw [hlen]; exact h2
  have hmem : t.leaves.getD i 0 ∈ t.leaves := getD_mem_of_lt t.leaves i hilt
  have hleafv :
      generateLeaf ⟨(d.getD i dummyEntry).address, (d.getD i dummyEntry).amount, none⟩
        i fmt = .ok (t.leaves.getD i 0) := by
    have hirrel := generateLeaf_index_irrel (d.getD i dummyEntry).address
      (d.getD i dummyEntry).amount none (d.getD i dummyEntry).index i fmt
    rw [hirrel]
    cases hd : d.getD i dummyEntry
    rw [← hd]
    exact hleaf
  simp only [verifyProof, hleafv, hstored, Option.getD_some]
  rw [getProofByLeaf_foldl t.leaves (t.leaves.getD i 0) hmem]
  rw [hroot, jsToLower_toHexRoot]
  simp

def mapKeys (m : List (String × List Nat)) : List String := m.map Prod.fst

theorem mapKeys_mapSet : ∀ (m : List (String × List Nat)) (k : String) (v : List Nat),
    mapKeys (mapSet m k v) =
      if (mapKeys m).contains k then mapKeys m else mapKeys m ++ [k]
  | [], k, v => by simp [mapSet, mapKeys]
  | p :: rest, k, v => by
    by_cases hp : p.1 = k
    · have hb2 : (k == p.1) = true := by simp [hp]
      simp [mapSet, mapKeys, hp, List.contains_cons, hb2]
    · have hb2 : (k == p.1) = false := by simpa using (Ne.symm hp)
      have ih := mapKeys_mapSet rest k v
      simp only [mapSet, if_neg hp, mapKeys, List.map_cons, List.contains_cons, hb2,
        Bool.false_or]
      rw [show List.map Prod.fst (mapSet rest k v) = mapKeys (mapSet rest k v) from rfl, ih]
      exact apply_ite (fun l => p.1 :: l) _ _ _

theorem mapKeys_foldl (g : Nat → List Nat) :
    ∀ (ps : List (Nat × DistributionData)) (m : List (String × List Nat)),
      mapKeys (ps.foldl (fun m p => mapSet m (jsToLower p.2.address) (g p.1)) m) =
        (ps.map (fun p => jsToLower p.2.address)).foldl
          (fun acc k => if acc.contains k then acc else acc ++ [k]) (mapKeys m)
  | [], _ => rfl
  | p :: rest, m => by
    simp only [List.foldl_cons, List.map_cons]
    rw [mapKeys_foldl g rest _, mapKeys_mapSet]

theorem insert_fold_nodup : ∀ (l : List String) (acc : List String), acc.Nodup →
    (l.foldl (fun acc k => if acc.contains k then acc else acc ++ [k]) acc).Nodup
  | [], _, h => h
  | k :: rest, acc, h => by
    simp only [List.foldl_cons]
    by_cases hc : acc.contains k
    · rw [if_pos hc]
      exact insert_fold_nodup rest acc h
    · rw [if_neg hc]
      refine insert_fold_nodup rest (acc ++ [k]) ?_
      have hnm : k ∉ acc := by simpa using hc
      simp [List.nodup_append, h, hnm]

theorem enumFrom_any (pred : DistributionData → Bool) :
    ∀ (d : List DistributionData) (s : Nat),
      (d.enumFrom s).any (fun p => pred p.2) = d.any pred
  | [], _ => rfl
  | e :: rest, s => by
    simp only [List.enumFrom, List.any_cons]
    rw [enumFrom_any pred rest (s + 1)]

theorem mapGet_foldl_isSome (g : Nat → List Nat) :
    ∀ (ps : List (Nat × DistributionData)) (m : List (String × List Nat)) (k : String),
      (mapGet? (ps.foldl (fun m p => mapSet m (jsToLower p.2.address) (g p.1)) m) k).isSome =
        (ps.any (fun p => jsToLower p.2.address == k) || (mapGet? m k).isSome)
  | [], m, k => by simp
  | p :: rest, m, k => by
    simp only [List.foldl_cons, List.any_cons]
    rw [mapGet_foldl_isSome g rest _ k, mapGet_mapSet]
    by_cases h : jsToLower p.2.address = k
    · simp [h]
    · have hb : (jsToLower p.2.address == k) = false := by simpa using h
      simp [h, hb]

/-- C10: the proofs map of a built tree is keyed by lowercase address with
exactly one binding per distinct address, and the binding of each address
is `getHexProof` of the *last* occurrence's leaf. -/
theorem proofs_keyed_by_last_occurrence (d : List DistributionData) (fmt : MerkleFormat)
    (t : MerkleTreeData) (h1 : generateMerkleTree d fmt = .ok t) :
    (∀ a, (mapGet? t.proofs a).isSome = true ↔ a ∈ d.map (fun e => jsToLower e.address)) ∧
      (mapKeys t.proofs).Nodup ∧
      ∀ i, i < d.length →
        (∀ j, i < j → j < d.length →
          jsToLower ((d.getD j dummyEntry).address) ≠ jsToLower ((d.getD i dummyEntry).address)) →
        mapGet? t.proofs (jsToLower ((d.getD i dummyEntry).address)) =
          some (getProofByLeaf t.leaves (t.leaves.getD i 0)) := by
  rcases generateMerkleTree_ok d fmt t h1 with ⟨_, _, _, hproofs⟩
  have henum : d.enum = d.enumFrom 0 := rfl
  refine ⟨?_, ?_, ?_⟩
  · intro a
    rw [hproofs, mapGet_foldl_isSome (fun idx => getProofByLeaf t.leaves (t.leaves.getD idx 0))
      d.enum [] a]
    rw [henum, enumFrom_any (fun e => jsToLower e.address == a) d 0]
    simp [List.any_eq_true, mapGet?]
  · rw [hproofs,
      mapKeys_foldl (fun idx => getProofByLeaf t.leaves (t.leaves.getD idx 0)) d.enum []]
    exact insert_fold_nodup _ [] (by simp)
  · intro i hi hlast
    rw [hproofs, henum]
    have := mapGet_foldl_last (fun idx => getProofByLeaf t.leaves (t.leaves.getD idx 0))
      d 0 [] i hi hlast
    simpa using this

/-! ## Concrete inputs used by witnesses and counterexamples -/

def addrA : String := "0xaaaaaaaaaaaaaaaaaaaaaaaaaaaaaaaaaaaaaaaa"

def addrB : String := "0xbbbbbbbbbbbbbbbbbbbbbbbbbbbbbbbbbbbbbbbb"

/-- Two entries sharing one lowercase address with different amounts. -/
def dDup : List DistributionData := [⟨addrA, "1", none⟩, ⟨addrA, "2", none⟩]

/-- Two entries with distinct addresses. -/
def dTwo : List DistributionData := [⟨addrA, "1", none⟩, ⟨addrB, "2", none⟩]

/-- C1, counterexample to the claim as stated: in a tree built from two
entries with the same lowercase address and different amounts, the stored
proof for that address is the second entry's, and `verifyProof` on the
*first* entry (its address, amount, stored proof, root, format, index)
returns `false`, not `true`. -/
theorem proof_roundtrip_counterexample :
    (generateMerkleTree dDup .custom).map
      (fun t => verifyProof addrA "1" ((mapGet? t.proofs addrA).getD []) t.root
        .custom (some 0)) = .ok (.ok false) := by
  rfl

/-- Witness for C1 (amended) at a concrete two-entry distribution. -/
theorem proof_roundtrip_witness :
    (generateMerkleTree dTwo .custom).map
      (fun t => verifyProof addrB "2" ((mapGet? t.proofs addrB).getD []) t.root
        .custom (some 1)) = .ok (.ok true) := by
  have hok : (generateMerkleTree dTwo .custom).isOk = true := by rfl
  cases htree : generateMerkleTree dTwo .custom with
  | error e => rw [htree] at hok; simp [Except.isOk, Except.toBool] at hok
  | ok t =>
    simp only [Except.map]
    have h := proof_roundtrip_last_occurrence dTwo .custom t 1 htree (by decide)
      (by intro j hj1 hj2; simp [dTwo] at hj2; omega)
    simpa using h

/-- Witness for C10 at a concrete duplicate-address distribution: the
surviving binding under the shared lowercase address is the proof of the
last occurrence's leaf (`leaves[1]`). -/
theorem proofs_keyed_witness :
    (generateMerkleTree dDup .custom).map
      (fun t => mapGet? t.proofs (jsToLower addrA)
        == some (getProofByLeaf t.leaves (t.leaves.getD 1 0))) = .ok true := by
  have hok : (generateMerkleTree dDup .custom).isOk = true := by rfl
  cases htree : generateMerkleTree dDup .custom with
  | error e => rw [htree] at hok; simp [Except.isOk, Except.toBool] at hok
  | ok t =>
    simp only [Except.map]
    have h := (proofs_keyed_by_last_occurrence dDup .custom t htree).2.2 1 (by decide)
      (by intro j hj1 hj2; simp [dDup] at hj2; omega)
    simp only [show jsToLower ((dDup.getD 1 dummyEntry).address) = jsToLower addrA from rfl] at h
    simp [h]

/-- C3: the sibling-combination step is commutative, and tree construction
(`combineHashes`, the merkletreejs sorted pair) and proof verification
(`verifyStep`, the string-comparison branch of `verifyProof`) compute the
same function. -/
theorem combine_commutative (a b : Nat) (ha : a < 2 ^ 256) (hb : b < 2 ^ 256) :
    combineHashes a b = combineHashes b a ∧ verifyStep a b = verifyStep b a ∧
      verifyStep a b = combineHashes a b :=
  ⟨combineHashes_comm a b, verifyStep_comm a b, verifyStep_eq_combine a b⟩

/-- Witness for C3 at concrete 32-byte values. -/
theorem combine_commutative_witness :
    combineHashes 1 2 = combineHashes 2 1 ∧ verifyStep 1 2 = verifyStep 2 1 ∧
      verifyStep 1 2 = combineHashes 1 2 :=
  combine_commutative 1 2 (by norm_num) (by norm_num)

/-! ## Orchestrator claims -/

/-- Unfolding a successful `verifyMerkleRoot` call. -/
theorem verifyMerkleRoot_ok (d : List DistributionData) (r : String)
    (fmtOpt : Option MerkleFormat) (mv : MerkleRootResult)
    (h : verifyMerkleRoot d r fmtOpt = .ok mv) :
    mv.format = fmtOpt.getD ((detectMerkleFormat d r).getD .custom) ∧
      mv.success = (jsToLower mv.computedRoot == jsToLower r) ∧
      (mv.success = false →
        mv.details = "Merkle root mismatch. Expected: " ++ r ++ ", Computed: " ++ mv.computedRoot) := by
  unfold verifyMerkleRoot at h
  dsimp only at h
  cases htree : generateMerkleTree d (fmtOpt.getD ((detectMerkleFormat d r).getD .custom)) with
  | error e => rw [htree] at h; cases h
  | ok md =>
    rw [htree] at h
    cases h
    refine ⟨rfl, rfl, ?_⟩
    intro hfail
    simp only at hfail
    simp [hfail]

/-- A `VerificationResult` placeholder for the error projection. -/
def dummyResult : VerificationResult :=
  ⟨false, ⟨"", "", false⟩, [], [], [], none, none, 0, ""⟩

/-- Projection out of the orchestrator's `Except` (used only to state
closed concrete facts). -/
def resOfE (x : Except String VerificationResult) : VerificationResult :=
  match x with
  | .ok r => r
  | .error _ => dummyResult

/-- The all-zero 32-byte root. -/
def zeroRoot : String := toHexRoot 0

/-- Unfolding a successful `createVerificationResult` call. -/
theorem createVerificationResult_ok (d : List DistributionData) (r : String)
    (pid sn : Option String) (res : VerificationResult)
    (h : createVerificationResult d r pid sn = .ok res) :
    ∃ mv, verifyMerkleRoot d r none = .ok mv ∧
      res.success = (mv.success && (validateDistribution d).all (fun c => c.status != "failed")) ∧
      res.merkleRoot = ⟨r, mv.computedRoot, mv.success⟩ ∧
      res.checks = validateDistribution d ∧
      res.errors = (if mv.success then [] else [⟨"MERKLE_ROOT_MISMATCH", mv.details⟩]) ∧
      res.warnings = ((validateDistribution d).filter (fun c => c.status == "warning")).map
        (fun c => ⟨warnCode c.name, c.details⟩) := by
  unfold createVerificationResult at h
  cases hmv : verifyMerkleRoot d r none with
  | error e => rw [hmv] at h; cases h
  | ok mv =>
    rw [hmv] at h
    cases h
    exact ⟨mv, rfl, rfl, rfl, rfl, rfl, rfl⟩

/-- C2: a returned `VerificationResult` has `success` exactly when the
computed root equals the expected root case-insensitively and no check
failed; and on a root mismatch the error list is exactly one
`MERKLE_ROOT_MISMATCH` error whose message names both roots. -/
theorem verification_success_iff (d : List DistributionData) (r : String)
    (pid sn : Option String) (res : VerificationResult)
    (h : createVerificationResult d r pid sn = .ok res) :
    res.success = (jsToLower res.merkleRoot.computed == jsToLower r &&
        res.checks.all (fun c => c.status != "failed")) ∧
      res.merkleRoot.matchRoot = (jsToLower res.merkleRoot.computed == jsToLower r) ∧
      res.merkleRoot.expected = r ∧
      (res.merkleRoot.matchRoot = false →
        res.errors = [⟨"MERKLE_ROOT_MISMATCH",
          "Merkle root mismatch. Expected: " ++ r ++ ", Computed: " ++ res.merkleRoot.computed⟩]) ∧
      (res.merkleRoot.matchRoot = true → res.errors = []) := by
  rcases createVerificationResult_ok d r pid sn res h with
    ⟨mv, hmv, hsucc, hroot, hchecks, herrs, _⟩
  rcases verifyMerkleRoot_ok d r none mv hmv with ⟨_, hmvsucc, hdetails⟩
  have hcomputed : res.merkleRoot.computed = mv.computedRoot := by rw [hroot]
  have hmatch : res.merkleRoot.matchRoot = mv.success := by rw [hroot]
  refine ⟨?_, ?_, by rw [hroot], ?_, ?_⟩
  · rw [hsucc, hchecks, hcomputed, hmvsucc]
  · rw [hmatch, hcomputed, hmvsucc]
  · intro hfail
    rw [hmatch] at hfail
    rw [herrs, if_neg (by simp [hfail]), hdetails hfail, hcomputed]
  · intro hokk
    rw [hmatch] at hokk
    rw [herrs, if_pos hokk]

/-- Witness for C2 at a concrete mismatching root. -/
theorem verification_success_iff_witness :
    (resOfE (createVerificationResult dTwo zeroRoot none none)).success = false ∧
      (resOfE (createVerificationResult dTwo zeroRoot none none)).merkleRoot.matchRoot = false ∧
      (resOfE (createVerificationResult dTwo zeroRoot none none)).errors =
        [⟨"MERKLE_ROOT_MISMATCH",
          "Merkle root mismatch. Expected: " ++ zeroRoot ++ ", Computed: " ++
            (resOfE (createVerificationResult dTwo zeroRoot none none)).merkleRoot.computed⟩] := by
  have hcomp : createVerificationResult dTwo zeroRoot none none =
      .ok (resOfE (createVerificationResult dTwo zeroRoot none none)) := by rfl
  have h := verification_success_iff dTwo zeroRoot none none _ hcomp
  have hmatch : (resOfE (createVerificationResult dTwo zeroRoot none none)).merkleRoot.matchRoot
      = false := by rfl
  refine ⟨?_, hmatch, h.2.2.2.1 hmatch⟩
  rw [h.1]
  rfl

/-- The formats tried before `fmt` in `detectMerkleFormat`'s fixed order. -/
def earlierFormats : MerkleFormat → List MerkleFormat
  | .openzeppelin => []
  | .uniswap => [.openzeppelin]
  | .custom => [.openzeppelin, .uniswap]

theorem detect_eq_ite (d : List DistributionData) (r : String) :
    detectMerkleFormat d r =
      (if formatMatches d r .openzeppelin then some MerkleFormat.openzeppelin
       else if formatMatches d r .uniswap then some MerkleFormat.uniswap
       else if formatMatches d r .custom then some MerkleFormat.custom else none) := by
  simp only [detectMerkleFormat]
  cases hoz : formatMatches d r .openzeppelin <;>
    cases hun : formatMatches d r .uniswap <;>
      cases hcu : formatMatches d r .custom <;>
        simp [List.find?, hoz, hun, hcu]

/-- Every warning-status check of the verifier's `validateDistribution` is
the duplicate check (no other check can reach status "warning"). -/
theorem warning_check_is_duplicate (d : List DistributionData) :
    ∀ c ∈ validateDistribution d, c.status = "warning" → c.name = "Duplicate Check" := by
  intro c hc hw
  simp only [validateDistribution, List.mem_cons, List.not_mem_nil, or_false] at hc
  rcases hc with h | h | h | h | h <;> subst h
  · unfold checkNotEmpty at hw
    dsimp only at hw
    split at hw <;> simp at hw
  · unfold checkAddresses at hw
    dsimp only at hw
    split at hw <;> simp at hw
  · unfold checkAmounts at hw
    dsimp only at hw
    split at hw <;> simp at hw
  · rfl
  · simp [checkTotal] at hw

/-- C4 (amended): auto-detection returns the first matching format of the
fixed order openzeppelin, uniswap, custom; with no match the orchestrator
falls back to `custom`; and the result's warnings never mention detection —
the only warning the result can carry is the duplicate check's. -/
theorem detect_fixed_order_and_fallback (d : List DistributionData) (r : String) :
    (∀ fmt, detectMerkleFormat d r = some fmt →
      formatMatches d r fmt = true ∧
        ∀ f2, f2 ∈ earlierFormats fmt → formatMatches d r f2 = false) ∧
      (detectMerkleFormat d r = none → ∀ f, formatMatches d r f = false) ∧
      (detectMerkleFormat d r = none →
        ∀ mv, verifyMerkleRoot d r none = .ok mv → mv.format = .custom) ∧
      (∀ res, createVerificationResult d r none none = .ok res →
        ∀ w, w ∈ res.warnings → w.code = "DUPLICATE_CHECK") := by
  refine ⟨?_, ?_, ?_, ?_⟩
  · intro fmt hfmt
    rw [detect_eq_ite] at hfmt
    by_cases hoz : formatMatches d r .openzeppelin
    · rw [if_pos hoz] at hfmt
      cases hfmt
      exact ⟨hoz, by intro f2 hf2; simp [earlierFormats] at hf2⟩
    · rw [if_neg hoz] at hfmt
      by_cases hun : formatMatches d r .uniswap
      · rw [if_pos hun] at hfmt
        cases hfmt
        refine ⟨hun, ?_⟩
        intro f2 hf2
        simp only [earlierFormats, List.mem_singleton] at hf2
        subst hf2
        simpa using hoz
      · rw [if_neg hun] at hfmt
        by_cases hcu : formatMatches d r .custom
        · rw [if_pos hcu] at hfmt
          cases hfmt
          refine ⟨hcu, ?_⟩
          intro f2 hf2
          simp only [earlierFormats, List.mem_cons, List.not_mem_nil, or_false,
            List.mem_singleton] at hf2
          rcases hf2 with h | h <;> subst h
          · simpa using hoz
          · simpa using hun
        · rw [if_neg hcu] at hfmt
          cases hfmt
  · intro hnone f
    rw [detect_eq_ite] at hnone
    by_cases hoz : formatMatches d r .openzeppelin
    · rw [if_pos hoz] at hnone; cases hnone
    · rw [if_neg hoz] at hnone
      by_cases hun : formatMatches d r .uniswap
      · rw [if_pos hun] at hnone; cases hnone
      · rw [if_neg hun] at hnone
        by_cases hcu : formatMatches d r .custom
        · rw [if_pos hcu] at hnone; cases hnone
        · cases f
          · simpa using hoz
          · simpa using hun
          · simpa using hcu
  · intro hnone mv hmv
    have := (verifyMerkleRoot_ok d r none mv hmv).1
    rw [this, hnone]
    rfl
  · intro res hres w hw
    rcases createVerificationResult_ok d r none none res hres with
      ⟨mv, _, _, _, _, _, hwarns⟩
    rw [hwarns] at hw
    rcases List.mem_map.mp hw with ⟨c, hcmem, hceq⟩
    have hcf := List.mem_filter.mp hcmem
    have hcstat : c.status = "warning" := by simpa using hcf.2
    have hcname := warning_check_is_duplicate d c hcf.1 hcstat
    rw [← hceq]
    simp only [hcname]
    rfl

/-- C4, counterexample to the claim as stated: with no matching format the
orchestrator does fall back to `custom`, but no warning that detection
failed is recorded anywhere in the result — the warnings list is empty. -/
theorem detect_fallback_counterexample :
    detectMerkleFormat dTwo zeroRoot = none ∧
      (verifyMerkleRoot dTwo zeroRoot none).map (fun mv => mv.format) =
        .ok MerkleFormat.custom ∧
      (resOfE (createVerificationResult dTwo zeroRoot none none)).warnings = [] := by
  exact ⟨rfl, rfl, rfl⟩

/-- Witness for C4 (amended) at a concrete undetectable root. -/
theorem detect_fixed_order_witness :
    formatMatches dTwo zeroRoot .openzeppelin = false ∧
      formatMatches dTwo zeroRoot .uniswap = false ∧
      formatMatches dTwo zeroRoot .custom = false ∧
      (resOfE (createVerificationResult dTwo zeroRoot none none)).warnings.all
        (fun w => w.code == "DUPLICATE_CHECK") = true := by
  have h := detect_fixed_order_and_fallback dTwo zeroRoot
  have hnone : detectMerkleFormat dTwo zeroRoot = none := by rfl
  have hcomp : createVerificationResult dTwo zeroRoot none none =
      .ok (resOfE (createVerificationResult dTwo zeroRoot none none)) := by rfl
  refine ⟨h.2.1 hnone _, h.2.1 hnone _, h.2.1 hnone _, ?_⟩
  rw [List.all_eq_true]
  intro w hw
  have := h.2.2.2 _ hcomp w hw
  simp [this]

/-- C5 (amended): the orchestrator called with an empty entry sequence does
not return a `VerificationResult` at all — the `MerkleTreeError` thrown by
`generateMerkleTree` propagates uncaught through `verifyMerkleRoot` and
`createVerificationResult`. -/
theorem empty_distribution_throws (r : String) (pid sn : Option String) :
    createVerificationResult [] r pid sn = .error "Distribution data is empty" := rfl

/-- C5, counterexample to the claim as stated: at a concrete root the call
on an empty sequence yields the propagated error, not a populated result. -/
theorem empty_distribution_counterexample :
    createVerificationResult [] zeroRoot none none = .error "Distribution data is empty" := rfl

/-! ## Amount-validity claims -/

/-- A one-entry distribution with amount exactly zero. -/
def dZero : List DistributionData := [⟨addrA, "0", none⟩]

/-- C7 (amended): the verifier's Amount Validation check counts zero valid —
it fails exactly on missing, `.`/`e`/`E`-containing, unparsable, or negative
amounts, with critical severity — but the validators-library
`validateAmount` rejects an amount of zero outright ("Amount must be
positive"). -/
theorem zero_amount_validation :
    (∀ s decs, s.data ≠ [] → s.data.all isDigitChar = true → (decVal? s.data).getD 0 = 0 →
      (validateAmount s decs).isValid = false ∧
        (validateAmount s decs).error = some "Amount must be positive") ∧
      (∀ ds : List DistributionData,
        ((checkAmounts ds).status = "failed" ↔ ∃ e ∈ ds, amountInvalid e.amount = true) ∧
          (checkAmounts ds).severity = "critical") ∧
      amountInvalid "0" = false := by
  refine ⟨?_, ?_, rfl⟩
  · intro s decs hne hdig hzero
    have hcond : (!s.data.isEmpty ∧ s.data.all isDigitChar = true) := by
      constructor
      · simpa using hne
      · exact hdig
    have hval : (((decVal? s.data).getD 0 : Nat) : Int) ≤ 0 := by
      rw [hzero]
      simp
    unfold validateAmount
    rw [if_pos hcond]
    dsimp only
    rw [if_pos hval]
    exact ⟨rfl, rfl⟩
  · intro ds
    constructor
    · show (if (ds.filter (fun d => amountInvalid d.amount)).length == 0
          then "passed" else "failed") = "failed" ↔ _
      by_cases hlen : (ds.filter (fun d => amountInvalid d.amount)).length = 0
      · rw [if_pos (by simpa using hlen)]
        simp only [List.length_eq_zero] at hlen
        constructor
        · intro hcontra
          exact absurd hcontra (by decide)
        · intro hex
          rcases hex with ⟨e, hmem, hinv⟩
          have : e ∈ ds.filter (fun d => amountInvalid d.amount) :=
            List.mem_filter.mpr ⟨hmem, hinv⟩
          rw [hlen] at this
          cases this
      · rw [if_neg (by simpa using hlen)]
        constructor
        · intro _
          have hne : ds.filter (fun d => amountInvalid d.amount) ≠ [] := by
            intro hnil
            exact hlen (by rw [hnil]; rfl)
          rcases List.exists_mem_of_ne_nil _ hne with ⟨e, hmem⟩
          have := List.mem_filter.mp hmem
          exact ⟨e, this.1, this.2⟩
        · intro _
          rfl
    · rfl

/-- C7, counterexample to the claim as stated: an amount of exactly zero
parses and is non-negative, yet `validateAmount` counts it invalid. -/
theorem zero_amount_counterexample :
    (validateAmount "0" 18).isValid = false ∧
      (validateAmount "0" 18).error = some "Amount must be positive" := ⟨rfl, rfl⟩

/-- Witness for C7 (amended) at concrete inputs. -/
theorem zero_amount_validation_witness :
    (validateAmount "0" 18).error = some "Amount must be positive" ∧
      (checkAmounts dZero).status ≠ "failed" ∧ amountInvalid "0" = false := by
  have h := zero_amount_validation
  refine ⟨(h.1 "0" 18 (by decide) (by decide) (by decide)).2, ?_, h.2.2⟩
  intro hf
  have := ((h.2.1 dZero).1).mp hf
  rcases this with ⟨e, hmem, hinv⟩
  simp only [dZero, List.mem_singleton] at hmem
  subst hmem
  have hfalse : amountInvalid "0" = false := rfl
  rw [hfalse] at hinv
  cases hinv

/-! ## Concentration-risk claim -/

theorem insertDesc_perm (a : Int) : ∀ l : List Int, (insertDesc a l).Perm (a :: l)
  | [] => List.Perm.refl _
  | b :: rest => by
    unfold insertDesc
    by_cases h : b ≤ a
    · rw [if_pos h]
    · rw [if_neg h]
      exact ((insertDesc_perm a rest).cons b).trans (List.Perm.swap a b rest)

theorem sortDescInt_perm : ∀ l : List Int, (sortDescInt l).Perm l
  | [] => List.Perm.refl _
  | x :: rest => by
    unfold sortDescInt
    simp only [List.foldr_cons]
    exact (insertDesc_perm x _).trans ((sortDescInt_perm rest).cons x)

theorem foldl_add_eq_sum : ∀ l : List Int, l.foldl (· + ·) 0 = l.sum := by
  intro l
  rw [List.sum_eq_foldl]

/-- `Number(a * 100n / total) > k` unwound to a multiplication (the BigInt
division truncates; both operands are nonnegative here). -/
theorem tdiv_cast_gt_iff (m n k : Nat) (hn : 0 < n) :
    ((k : Int) < Int.tdiv (m : Int) (n : Int)) ↔ ((k + 1) * n ≤ m) := by
  have h1 : Int.tdiv (m : Int) (n : Int) = ((m / n : Nat) : Int) := rfl
  rw [h1]
  constructor
  · intro h
    have hk : k < m / n := by exact_mod_cast h
    exact (Nat.le_div_iff_mul_le hn).mp (Nat.succ_le_of_lt hk) |>.trans_eq rfl
  · intro h
    have hk : k + 1 ≤ m / n := (Nat.le_div_iff_mul_le hn).mpr h
    exact_mod_cast Nat.lt_of_succ_le hk

/-- C8 (amended): concentration risk sorts descending, sums the top
`max(1, floor(length/10))` amounts (floor, not ceil), classifies the
truncated integer percentage (`> 80` → high, `> 50` → medium, else low),
and the validation check surfaces `high` as a medium-severity warning
while the other classifications pass. -/
theorem concentration_risk_floor (amounts : List Int) (hne : amounts ≠ [])
    (hpos : ∀ a ∈ amounts, 0 < a) :
    (calculateConcentrationRisk amounts = .high ↔
        81 * amounts.foldl (· + ·) 0 ≤
          100 * ((sortDescInt amounts).take (max 1 (amounts.length / 10))).foldl (· + ·) 0) ∧
      (calculateConcentrationRisk amounts = .medium ↔
        ¬(81 * amounts.foldl (· + ·) 0 ≤
            100 * ((sortDescInt amounts).take (max 1 (amounts.length / 10))).foldl (· + ·) 0) ∧
          51 * amounts.foldl (· + ·) 0 ≤
            100 * ((sortDescInt amounts).take (max 1 (amounts.length / 10))).foldl (· + ·) 0) ∧
      (calculateConcentrationRisk amounts = .low ↔
        ¬(51 * amounts.foldl (· + ·) 0 ≤
            100 * ((sortDescInt amounts).take (max 1 (amounts.length / 10))).foldl (· + ·) 0)) ∧
      ((concentrationRiskCheck amounts).status = "warning" ↔
        calculateConcentrationRisk amounts = .high) ∧
      ((concentrationRiskCheck amounts).severity = "medium" ↔
        calculateConcentrationRisk amounts = .high) := by
  have hlen : (sortDescInt amounts).length = amounts.length := (sortDescInt_perm amounts).length_eq
  have htot : 0 < amounts.foldl (· + ·) 0 := by
    rw [foldl_add_eq_sum]
    exact List.sum_pos amounts hpos hne
  have hT : 0 ≤ ((sortDescInt amounts).take (max 1 (amounts.length / 10))).foldl (· + ·) 0 := by
    rw [foldl_add_eq_sum]
    refine List.sum_nonneg ?_
    intro x hx
    have hx2 : x ∈ sortDescInt amounts := List.mem_of_mem_take hx
    have hx3 : x ∈ amounts := (sortDescInt_perm amounts).mem_iff.mp hx2
    exact (hpos x hx3).le
  set T := ((sortDescInt amounts).take (max 1 (amounts.length / 10))).foldl (· + ·) 0 with hTdef
  set tot := amounts.foldl (· + ·) 0 with htotdef
  have hmeq : ((T.toNat * 100 : Nat) : Int) = T * 100 := by
    push_cast [Int.toNat_of_nonneg hT]
    ring
  have hneq : ((tot.toNat : Nat) : Int) = tot := Int.toNat_of_nonneg htot.le
  have h80 : (80 < Int.tdiv (T * 100) tot) ↔ 81 * tot ≤ 100 * T := by
    have h := tdiv_cast_gt_iff (T.toNat * 100) tot.toNat 80 (by omega)
    rw [hmeq, hneq] at h
    rw [show ((80 : Nat) : Int) = (80 : Int) from rfl] at h
    rw [h]
    omega
  have h50 : (50 < Int.tdiv (T * 100) tot) ↔ 51 * tot ≤ 100 * T := by
    have h := tdiv_cast_gt_iff (T.toNat * 100) tot.toNat 50 (by omega)
    rw [hmeq, hneq] at h
    rw [show ((50 : Nat) : Int) = (50 : Int) from rfl] at h
    rw [h]
    omega
  have hcalc : calculateConcentrationRisk amounts =
      (if 80 < Int.tdiv (T * 100) tot then RiskLevel.high
       else if 50 < Int.tdiv (T * 100) tot then RiskLevel.medium else RiskLevel.low) := by
    unfold calculateConcentrationRisk
    rw [if_neg (by simpa using hne)]
    dsimp only
    rw [if_neg (by simpa using htot.ne')]
    rw [hlen]
  have hmono : 81 * tot ≤ 100 * T → 51 * tot ≤ 100 * T := by
    intro h
    nlinarith
  refine ⟨?_, ?_, ?_, ?_, ?_⟩
  · rw [hcalc]
    by_cases h81 : 81 * tot ≤ 100 * T
    · simp [h80.mpr, h81, if_pos (h80.mpr h81)]
    · rw [if_neg (by rw [h80]; exact h81)]
      by_cases h51 : 51 * tot ≤ 100 * T <;>
        simp [h51, h81] <;> split <;> simp_all
  · rw [hcalc]
    by_cases h81 : 81 * tot ≤ 100 * T
    · rw [if_pos (h80.mpr h81)]
      simp [h81]
    · rw [if_neg (by rw [h80]; exact h81)]
      by_cases h51 : 51 * tot ≤ 100 * T
      · rw [if_pos (h50.mpr h51)]
        simp [h81, h51]
      · rw [if_neg (by rw [h50]; exact h51)]
        simp [h81, h51]
  · rw [hcalc]
    by_cases h81 : 81 * tot ≤ 100 * T
    · rw [if_pos (h80.mpr h81)]
      simp [hmono h81]
    · rw [if_neg (by rw [h80]; exact h81)]
      by_cases h51 : 51 * tot ≤ 100 * T
      · rw [if_pos (h50.mpr h51)]
        simp [h51]
      · rw [if_neg (by rw [h50]; exact h51)]
        simp [h51]
  · by_cases hr : calculateConcentrationRisk amounts = .high <;>
      simp [concentrationRiskCheck, hr]
  · by_cases hr : calculateConcentrationRisk amounts = .high <;>
      simp [concentrationRiskCheck, hr]

/-- 11 amounts: the top-ceil(10%) rule would sum two (60+35 = 95 of 104,
high) while the code's floor rule sums one (60 of 104, 57%, medium). -/
def lCex : List Int := [60, 35, 1, 1, 1, 1, 1, 1, 1, 1, 1]

/-- C8 counterexample: at `lCex` the spec's ceil(10%) rule classifies high,
but `calculateConcentrationRisk` uses `Math.floor(length * 0.1)` and
classifies medium, so the check passes instead of warning. -/
theorem concentration_risk_counterexample :
    concentrationRiskCeilSpec lCex = .high ∧
      calculateConcentrationRisk lCex = .medium ∧
      (concentrationRiskCheck lCex).status = "passed" :=
  ⟨rfl, rfl, rfl⟩

/-- C8 witness: `concentration_risk_floor` instantiated at `lCex`. -/
theorem concentration_risk_floor_witness :
    lCex ≠ [] ∧ (∀ a ∈ lCex, 0 < a) ∧
      ((concentrationRiskCheck lCex).status = "warning" ↔
        calculateConcentrationRisk lCex = .high) :=
  ⟨by decide, by decide, (concentration_risk_floor lCex (by decide) (by decide)).2.2.2.1⟩

/-- A falsy (or absent) address chain makes `parseArrayItem` throw the
message naming the element's index and `Object.keys`. -/
theorem parseArrayItem_err (it : Json) (i : Nat)
    (h : jsTruthy ((jsOrChain it ["address", "recipient", "account", "wallet", "to"]).getD .null)
        = false) :
    parseArrayItem it i = .error
      ("Missing address field in distribution entry " ++ toString i ++
        ". Available fields: " ++ String.intercalate ", " (jsKeys it)) := by
  cases hc : jsOrChain it ["address", "recipient", "account", "wallet", "to"] with
  | none => simp [parseArrayItem, hc]
  | some v =>
    rw [hc] at h
    simp only [Option.getD] at h
    simp [parseArrayItem, hc, h]

/-- A truthy address chain makes `parseArrayItem` return the entry built
from the two field fallback chains and the optional `index` field. -/
theorem parseArrayItem_ok_eq (it : Json) (i : Nat)
    (h : jsTruthy ((jsOrChain it ["address", "recipient", "account", "wallet", "to"]).getD .null)
        = true) :
    parseArrayItem it i = .ok
      (⟨(jsOrChain it ["address", "recipient", "account", "wallet", "to"]).getD Json.null,
        (processAmount (jsOrChain it ["amount", "value", "balance", "quantity", "tokens"])).1,
        (jsGet? it "index").getD (Json.num i)⟩,
       (processAmount (jsOrChain it ["amount", "value", "balance", "quantity", "tokens"])).2.map
         (fun w => (i, w))) := by
  cases hc : jsOrChain it ["address", "recipient", "account", "wallet", "to"] with
  | none => rw [hc] at h; exact absurd h (by decide)
  | some v =>
    rw [hc] at h
    simp only [Option.getD] at h
    simp [parseArrayItem, hc, h]

/-- When every element has a truthy address chain, the array branch maps
each element in order to its parsed entry, collecting the per-element
console warnings tagged with the element's index. -/
theorem parseArrayItemsAux_all_ok (items : List Json) : ∀ start : Nat,
    (∀ it ∈ items,
      jsTruthy ((jsOrChain it ["address", "recipient", "account", "wallet", "to"]).getD .null)
        = true) →
    parseArrayItemsAux items start = .ok
      ((items.enumFrom start).map (fun p =>
          ⟨(jsOrChain p.2 ["address", "recipient", "account", "wallet", "to"]).getD Json.null,
           (processAmount (jsOrChain p.2 ["amount", "value", "balance", "quantity", "tokens"])).1,
           (jsGet? p.2 "index").getD (Json.num p.1)⟩),
       ((items.enumFrom start).map (fun p =>
          (processAmount (jsOrChain p.2 ["amount", "value", "balance", "quantity", "tokens"])).2.map
            (fun w => (p.1, w)))).flatten) := by
  induction items with
  | nil => intro start h; rfl
  | cons it rest ih =>
    intro start h
    have h1 := h it (List.mem_cons_self it rest)
    have h2 : ∀ x ∈ rest,
        jsTruthy ((jsOrChain x ["address", "recipient", "account", "wallet", "to"]).getD .null)
          = true :=
      fun x hx => h x (List.mem_cons_of_mem it hx)
    simp only [parseArrayItemsAux]
    rw [parseArrayItem_ok_eq it start h1, ih (start + 1) h2]
    simp [List.enumFrom]

/-- Conversely, a successful array parse means every element's address
chain was truthy. -/
theorem parseArrayItemsAux_ok_truthy (items : List Json) : ∀ (start : Nat)
    (r : List ParsedEntry × List (Nat × String)),
    parseArrayItemsAux items start = .ok r →
    ∀ it ∈ items,
      jsTruthy ((jsOrChain it ["address", "recipient", "account", "wallet", "to"]).getD .null)
        = true := by
  induction items with
  | nil => intro start r _ it hit; exact absurd hit (List.not_mem_nil it)
  | cons a rest ih =>
    intro start r hok it hit
    by_cases ht :
        jsTruthy ((jsOrChain a ["address", "recipient", "account", "wallet", "to"]).getD .null)
          = true
    · rcases List.mem_cons.mp hit with rfl | hmem
      · exact ht
      · rw [parseArrayItemsAux, parseArrayItem_ok_eq a start ht] at hok
        dsimp only at hok
        cases hrec : parseArrayItemsAux rest (start + 1) with
        | error e => rw [hrec] at hok; simp at hok
        | ok r2 => exact ih (start + 1) r2 hrec it hmem
    · have ht' :
          jsTruthy ((jsOrChain a ["address", "recipient", "account", "wallet", "to"]).getD .null)
            = false := by
        simpa using ht
      rw [parseArrayItemsAux, parseArrayItem_err a start ht'] at hok
      simp at hok

/-- The first element with a falsy address chain aborts the whole array
parse with the message naming that element's position and fields. -/
theorem parseArrayItemsAux_first_err (items : List Json) : ∀ (start i : Nat)
    (h : i < items.length),
    (∀ j (hj : j < items.length), j < i →
      jsTruthy ((jsOrChain (items.get ⟨j, hj⟩)
          ["address", "recipient", "account", "wallet", "to"]).getD .null) = true) →
    jsTruthy ((jsOrChain (items.get ⟨i, h⟩)
        ["address", "recipient", "account", "wallet", "to"]).getD .null) = false →
    parseArrayItemsAux items start = .error
      ("Missing address field in distribution entry " ++ toString (start + i) ++
        ". Available fields: " ++ String.intercalate ", " (jsKeys (items.get ⟨i, h⟩))) := by
  induction items with
  | nil => intro start i h; exact absurd h (Nat.not_lt_zero i)
  | cons a rest ih =>
    intro start i h hpre hbad
    cases i with
    | zero =>
      rw [parseArrayItemsAux, parseArrayItem_err a start hbad]
      dsimp only
      rw [Nat.add_zero]
      rfl
    | succ k =>
      have ha :
          jsTruthy ((jsOrChain a ["address", "recipient", "account", "wallet", "to"]).getD .null)
            = true :=
        hpre 0 (Nat.succ_pos _) (Nat.succ_pos k)
      rw [parseArrayItemsAux, parseArrayItem_ok_eq a start ha]
      have h' : k < rest.length := Nat.lt_of_succ_lt_succ h
      have hbad' :
          jsTruthy ((jsOrChain (rest.get ⟨k, h'⟩)
              ["address", "recipient", "account", "wallet", "to"]).getD .null) = false := hbad
      have hpre' : ∀ j (hj : j < rest.length), j < k →
          jsTruthy ((jsOrChain (rest.get ⟨j, hj⟩)
              ["address", "recipient", "account", "wallet", "to"]).getD .null) = true :=
        fun j hj hjk => hpre (j + 1) (Nat.succ_lt_succ hj) (Nat.succ_lt_succ hjk)
      rw [ih (start + 1) k h' hpre' hbad']
      dsimp only
      have hadd : start + 1 + k = start + (k + 1) := by omega
      rw [hadd]
      rfl

/-- Successful array parses are exactly the in-order map of the element
parser, with the flattened tagged console warnings. -/
theorem parseDistributionArray_ok_char (items : List Json) (entries : List ParsedEntry)
    (ws : List (Nat × String))
    (hok : parseDistributionArray items = .ok (entries, ws)) :
    entries = items.enum.map (fun p =>
        ⟨(jsOrChain p.2 ["address", "recipient", "account", "wallet", "to"]).getD Json.null,
         (processAmount (jsOrChain p.2 ["amount", "value", "balance", "quantity", "tokens"])).1,
         (jsGet? p.2 "index").getD (Json.num p.1)⟩) ∧
      ws = (items.enum.map (fun p =>
        (processAmount (jsOrChain p.2 ["amount", "value", "balance", "quantity", "tokens"])).2.map
          (fun w => (p.1, w)))).flatten := by
  cases items with
  | nil => simp [parseDistributionArray] at hok
  | cons a rest =>
    rw [parseDistributionArray, if_neg (by simp)] at hok
    have htr := parseArrayItemsAux_ok_truthy (a :: rest) 0 (entries, ws) hok
    have heq := parseArrayItemsAux_all_ok (a :: rest) 0 htr
    rw [hok] at heq
    simp only [Except.ok.injEq, Prod.mk.injEq] at heq
    exact ⟨heq.1, heq.2⟩

/-- C6 (amended): in the array branch, each element's address is the first
TRUTHY field among address, recipient, account, wallet, to, and the amount
the first truthy field among amount, value, balance, quantity, tokens (a
present-but-falsy field such as `amount: 0` is skipped); the first element
with no truthy address field aborts the whole call with an error naming
that element's position and available fields; an absent (or null-valued)
amount chain yields amount "0" for that entry with NO recorded warning;
and an empty array is an explicit error. -/
theorem parse_distribution_shape1 :
    (parseDistributionArray [] = .error "Distribution data array is empty") ∧
      (∀ (items : List Json) (i : Nat) (h : i < items.length),
        (∀ j (hj : j < items.length), j < i →
          jsTruthy ((jsOrChain (items.get ⟨j, hj⟩)
              ["address", "recipient", "account", "wallet", "to"]).getD .null) = true) →
        jsTruthy ((jsOrChain (items.get ⟨i, h⟩)
            ["address", "recipient", "account", "wallet", "to"]).getD .null) = false →
        parseDistributionArray items = .error
          ("Missing address field in distribution entry " ++ toString i ++
            ". Available fields: " ++ String.intercalate ", " (jsKeys (items.get ⟨i, h⟩)))) ∧
      (∀ (items : List Json) (entries : List ParsedEntry) (ws : List (Nat × String)),
        parseDistributionArray items = .ok (entries, ws) →
        entries = items.enum.map (fun p =>
          ⟨(jsOrChain p.2 ["address", "recipient", "account", "wallet", "to"]).getD Json.null,
           (processAmount (jsOrChain p.2
               ["amount", "value", "balance", "quantity", "tokens"])).1,
           (jsGet? p.2 "index").getD (Json.num p.1)⟩)) ∧
      (∀ (items : List Json) (entries : List ParsedEntry) (ws : List (Nat × String)) (i : Nat)
          (it : Json),
        parseDistributionArray items = .ok (entries, ws) →
        items[i]? = some it →
        jsOrChain it ["amount", "value", "balance", "quantity", "tokens"] = none →
        entries[i]? = some
          ⟨(jsOrChain it ["address", "recipient", "account", "wallet", "to"]).getD Json.null,
           "0", (jsGet? it "index").getD (Json.num i)⟩ ∧
          ∀ w ∈ ws, w.1 ≠ i) := by
  refine ⟨rfl, ?_, ?_, ?_⟩
  · intro items i h hpre hbad
    cases items with
    | nil => exact absurd h (Nat.not_lt_zero i)
    | cons a rest =>
      rw [parseDistributionArray, if_neg (by simp)]
      have herr := parseArrayItemsAux_first_err (a :: rest) 0 i h hpre hbad
      rw [Nat.zero_add] at herr
      exact herr
  · intro items entries ws hok
    exact (parseDistributionArray_ok_char items entries ws hok).1
  · intro items entries ws i it hok hget hnone
    obtain ⟨h1, h2⟩ := parseDistributionArray_ok_char items entries ws hok
    constructor
    · rw [h1, List.getElem?_map, List.enum, List.getElem?_enumFrom, hget]
      simp [hnone, processAmount]
    · intro w hw
      rw [h2, List.mem_flatten] at hw
      obtain ⟨l, hl, hwl⟩ := hw
      rw [List.mem_map] at hl
      obtain ⟨p, hp, rfl⟩ := hl
      rw [List.mem_map] at hwl
      obtain ⟨t, ht, rfl⟩ := hwl
      intro hpi
      have hp2 : items[p.1]? = some p.2 := List.mem_enum_iff_getElem?.mp hp
      rw [hpi, hget] at hp2
      have hit : p.2 = it := (Option.some.inj hp2).symm
      rw [hit, hnone] at ht
      exact absurd ht (by simp [processAmount])

/-- Two payload elements: `amount: 0` is present but falsy (so the chain
falls through to `value`), and the second element has no amount-like
field at all. -/
def itemsFallback : List Json :=
  [mkObj [("address", Json.str "0xaa"), ("amount", Json.num 0), ("value", Json.num 7)],
   mkObj [("address", Json.str "0xbb")]]

/-- A valid first element and a second whose only address-like field is
the falsy `recipient: ""`. -/
def itemsBadAddr : List Json :=
  [mkObj [("address", Json.str "0xaa")],
   mkObj [("recipient", Json.str ""), ("foo", Json.num 1)]]

/-- C6 counterexample: the amount is taken from the first TRUTHY field —
`amount: 0` is present yet skipped in favour of `value: 7` — and the
missing amount of the second element becomes "0" with an empty warning
list, not the claimed warning. -/
theorem parse_distribution_counterexample :
    parseDistributionArray itemsFallback =
      .ok ([⟨Json.str "0xaa", "7", Json.num 0⟩, ⟨Json.str "0xbb", "0", Json.num 1⟩], []) := rfl

/-- C6 witness: `parse_distribution_shape1` instantiated at concrete
payloads: the missing-address error at element 1 of `itemsBadAddr`, and
the defaulted amount of element 1 of `itemsFallback`. -/
theorem parse_distribution_shape1_witness :
    (parseDistributionArray itemsBadAddr = .error
      "Missing address field in distribution entry 1. Available fields: recipient, foo") ∧
      (([⟨Json.str "0xaa", "7", Json.num 0⟩, ⟨Json.str "0xbb", "0", Json.num 1⟩] :
          List ParsedEntry)[1]? = some ⟨Json.str "0xbb", "0", Json.num 1⟩ ∧
        ∀ w ∈ ([] : List (Nat × String)), w.1 ≠ 1) :=
  ⟨parse_distribution_shape1.2.1 itemsBadAddr 1 (by decide) (by decide) (by decide),
   parse_distribution_shape1.2.2.2 itemsFallback
     [⟨Json.str "0xaa", "7", Json.num 0⟩, ⟨Json.str "0xbb", "0", Json.num 1⟩] [] 1
     (mkObj [("address", Json.str "0xbb")]) rfl rfl rfl⟩

/-- C9: auto-detection computes its candidate roots from at most the first
10 entries, so with more than 10 entries a format whose FULL-tree root
matches the expected root is still not detected when none of the three
first-10-entry roots equals that root, and the orchestrator then falls
back to the custom format. -/
theorem detect_uses_first_ten :
    (∀ (d : List DistributionData) (r : String),
      detectMerkleFormat d r = detectMerkleFormat (d.take 10) r) ∧
      ∀ (d : List DistributionData) (r : String) (fmt : MerkleFormat) (t : MerkleTreeData),
        10 < d.length →
        generateMerkleTree d fmt = .ok t →
        jsToLower t.root = jsToLower r →
        (∀ (f : MerkleFormat) (t10 : MerkleTreeData),
          generateMerkleTree (d.take 10) f = .ok t10 → t10.root ≠ t.root) →
        detectMerkleFormat d r = none ∧
          ∀ mv, verifyMerkleRoot d r none = .ok mv → mv.format = .custom := by
  constructor
  · intro d r
    have hfun : formatMatches (d.take 10) r = formatMatches d r := by
      funext f
      unfold formatMatches
      rw [List.take_take]
      norm_num
    unfold detectMerkleFormat
    rw [hfun]
  · intro d r fmt t hlen htree hmatch hnodet
    have hfm : ∀ f, formatMatches d r f = false := by
      intro f
      unfold formatMatches
      cases h10 : generateMerkleTree (d.take 10) f with
      | error e => rfl
      | ok t10 =>
        dsimp only
        obtain ⟨_, _, hroot10, _⟩ := generateMerkleTree_ok _ _ _ h10
        obtain ⟨_, _, hroot, _⟩ := generateMerkleTree_ok _ _ _ htree
        have hne := hnodet f t10 h10
        cases hbeq : (jsToLower t10.root == jsToLower r) with
        | false => rfl
        | true =>
          have heq : jsToLower t10.root = jsToLower r := by simpa using hbeq
          rw [← hmatch, hroot10, hroot, jsToLower_toHexRoot, jsToLower_toHexRoot] at heq
          exact absurd (hroot10.trans (heq.trans hroot.symm)) hne
    have hdet : detectMerkleFormat d r = none := by
      rw [detect_eq_ite]
      simp [hfm]
    refine ⟨hdet, ?_⟩
    intro mv hmv
    have hfmt := (verifyMerkleRoot_ok d r none mv hmv).1
    rw [hdet] at hfmt
    exact hfmt

def dummyTreeData : MerkleTreeData := ⟨"", [], []⟩

/-- Projection out of the tree builder's `Except` (used only to state
closed concrete facts). -/
def treeOfE (x : Except String MerkleTreeData) : MerkleTreeData :=
  match x with
  | .ok t => t
  | .error _ => dummyTreeData

/-- A lowercase 40-hex-digit address of one repeated digit. -/
def repAddr (c : Char) : String := "0x" ++ String.mk (List.replicate 40 c)

/-- Eleven entries with distinct addresses. -/
def d11 : List DistributionData :=
  [⟨repAddr '1', "1", none⟩, ⟨repAddr '2', "2", none⟩, ⟨repAddr '3', "3", none⟩,
   ⟨repAddr '4', "4", none⟩, ⟨repAddr '5', "5", none⟩, ⟨repAddr '6', "6", none⟩,
   ⟨repAddr '7', "7", none⟩, ⟨repAddr '8', "8", none⟩, ⟨repAddr '9', "9", none⟩,
   ⟨repAddr 'a', "10", none⟩, ⟨repAddr 'b', "11", none⟩]

/-- The packed-format root of the full eleven-entry tree. -/
def r11 : String := "0xeafec496c36668dbc6a32771386ba75c553f5859c1777cf0787d9665af7e8a40"

/-- C9 witness: `detect_uses_first_ten` instantiated at the eleven-entry
`d11` whose full custom-format root is the expected `r11`: none of the
three first-10-entry roots equals it, detection returns none, and the
orchestrator falls back to custom. -/
theorem detect_first_ten_witness :
    10 < d11.length ∧ detectMerkleFormat d11 r11 = none ∧
      ∀ mv, verifyMerkleRoot d11 r11 none = .ok mv → mv.format = .custom := by
  have hnodet : ∀ (f : MerkleFormat) (t10 : MerkleTreeData),
      generateMerkleTree (d11.take 10) f = .ok t10 →
      t10.root ≠ (treeOfE (generateMerkleTree d11 .custom)).root := by
    intro f t10 h10 heq
    have hroot : (treeOfE (generateMerkleTree d11 .custom)).root = r11 := by rfl
    rw [hroot] at heq
    cases f
    · rw [show generateMerkleTree (d11.take 10) MerkleFormat.openzeppelin =
          .ok (treeOfE (generateMerkleTree (d11.take 10) MerkleFormat.openzeppelin)) from rfl]
        at h10
      cases h10
      exact absurd heq (by decide)
    · rw [show generateMerkleTree (d11.take 10) MerkleFormat.uniswap =
          .ok (treeOfE (generateMerkleTree (d11.take 10) MerkleFormat.uniswap)) from rfl]
        at h10
      cases h10
      exact absurd heq (by decide)
    · rw [show generateMerkleTree (d11.take 10) MerkleFormat.custom =
          .ok (treeOfE (generateMerkleTree (d11.take 10) MerkleFormat.custom)) from rfl]
        at h10
      cases h10
      exact absurd heq (by decide)
  have h := detect_uses_first_ten.2 d11 r11 .custom (treeOfE (generateMerkleTree d11 .custom))
    (by decide) (by rfl) (by rfl) hnodet
  exact ⟨by decide, h.1, h.2⟩
